import Mathlib

/-!
# Receipt processor: points calculation and its two HTTP handlers

A shallow embedding of `src/main.go`.  The Go standard-library calls the
program makes (`strconv.ParseFloat`, `math.Mod`, `math.Ceil`, float64
multiplication, `time.Parse`, `strings.TrimSpace`, `strings.ReplaceAll`) are
embedded from their documented behaviour; the program itself is embedded
statement by statement.

Conventions
* a Go `string` is a Lean `String`; the texts of a `Receipt` come out of
  `encoding/json`, which yields valid UTF-8, so a string is a list of runes;
* a Go `int` is a 64-bit two's complement integer: an `Int` kept in range by
  `wrap64` wherever the program adds to `points`;
* a finite `float64` is an integer multiple of `2 ^ (-1074)`: `F64.fin z`
  is the value `z / 2 ^ 1074` (the sign of zero is not kept: no operation
  of the program tells `-0` from `0`).
-/

set_option exponentiation.threshold 5000

namespace Receipts

/-! ## Data model -/

/-- Go `type Item struct`. -/
structure Item where
  ShortDescription : String
  Price : String
deriving DecidableEq, Repr

/-- Go `type Receipt struct`. -/
structure Receipt where
  Retailer : String
  PurchaseDate : String
  PurchaseTime : String
  Items : List Item
  Total : String
deriving DecidableEq, Repr

/-- The zero value of `Receipt`: what a Go map lookup yields for a missing key. -/
def Receipt.zero : Receipt := ⟨"", "", "", [], ""⟩

/-- Go `var receiptData map[string]Receipt`. -/
abbrev Store := String → Option Receipt

/-- The map made by `init`: `make(map[string]Receipt)`. -/
def Store.empty : Store := fun _ => none

/-- Go `receiptData[id]` read as a one-value expression: the stored receipt,
or the zero value when the key is absent. -/
def Store.index (m : Store) (id : String) : Receipt :=
  match m id with
  | some r => r
  | none => Receipt.zero

/-- Go `receiptData[id] = receipt`. -/
def Store.assign (m : Store) (id : String) (r : Receipt) : Store :=
  fun k => if k = id then some r else m k

/-! ## Go `int` -/

/-- Reduction of an integer into the range of a 64-bit two's complement `int`. -/
def wrap64 (x : Int) : Int := (x + 2 ^ 63) % 2 ^ 64 - 2 ^ 63

/-- Go `a + b` on `int`. -/
def add64 (a b : Int) : Int := wrap64 (a + b)

/-! ## float64 -/

/-- A float64 value; `fin z` is the finite value `z / 2 ^ 1074`. -/
inductive F64 where
  | fin (z : Int)
  | pinf
  | ninf
  | nan
deriving DecidableEq, Repr

namespace F64

/-- The unit in which finite values are counted: `1.0 = fin unit`. -/
def unit : Nat := 2 ^ 1074

/-- Whether `n / d ≥ 2 ^ e`, for `d > 0`. -/
def geTwoPow (n d : Nat) (e : Int) : Bool :=
  if 0 ≤ e then decide (d * 2 ^ e.toNat ≤ n) else decide (d ≤ n * 2 ^ (-e).toNat)

/-- Binary search: the largest `lo + k` (with `k` a sum of some of the weights)
at which `geTwoPow n d` still holds. -/
def searchExp (n d : Nat) : List Nat → Int → Int
  | [], lo => lo
  | w :: ws, lo =>
    if geTwoPow n d (lo + w) then searchExp n d ws (lo + w) else searchExp n d ws lo

/-- The binary exponent `⌊log₂ (n / d)⌋` of a positive ratio, clamped to
`[-1075, 3020]` (more than the float64 range needs on either side). -/
def binExp (n d : Nat) : Int :=
  searchExp n d [2048, 1024, 512, 256, 128, 64, 32, 16, 8, 4, 2, 1] (-1075)

/-- The integer nearest to `num / den`, ties to the even one. -/
def roundHalfEven (num den : Nat) : Nat :=
  let q := num / den
  let r := num % den
  if 2 * r < den then q
  else if den < 2 * r then q + 1
  else if q % 2 = 0 then q else q + 1

/-- The exponent of the last place the rounded value of `n / d` keeps: 52
below the binary exponent (a 53-bit significand), and not below `-1074`
(subnormal numbers). -/
def roundScale (n d : Nat) : Int := max (binExp n d - 52) (-1074)

/-- The significand of the rounded value: `n / d` counted in units
`2 ^ roundScale n d`, rounded to the nearest integer, ties to even. -/
def roundSig (n d : Nat) : Nat :=
  if 0 ≤ roundScale n d then roundHalfEven n (d * 2 ^ (roundScale n d).toNat)
  else roundHalfEven (n * 2 ^ (-roundScale n d).toNat) d

/-- IEEE 754 round-to-nearest-even of the ratio `n / d` (`d > 0`) to binary64
(53-bit significand, least exponent `-1074`), as a count of units
`2 ^ (-1074)`; `none` when the rounded value exceeds the largest finite
float64. -/
def roundMag (n d : Nat) : Option Nat :=
  let z := roundSig n d * 2 ^ (roundScale n d + 1074).toNat
  if z < 2 ^ 2098 then some z else none

/-- The float64 nearest to `± n / d`; overflow gives the infinity of that sign. -/
def ofRatio (neg : Bool) (n d : Nat) : F64 :=
  match roundMag n d with
  | some z => fin (if neg then -(z : Int) else (z : Int))
  | none => if neg then ninf else pinf

/-- The constant `0`. -/
def zero : F64 := fin 0

/-- The constant `1.0`. -/
def one : F64 := ofRatio false 1 1

/-- The constant `0.25`. -/
def quarter : F64 := ofRatio false 1 4

/-- The constant `0.2` as the compiler converts it to float64. -/
def fifth : F64 := ofRatio false 1 5

/-- Go `x == y` on float64. -/
def eq : F64 → F64 → Bool
  | fin a, fin b => decide (a = b)
  | pinf, pinf => true
  | ninf, ninf => true
  | _, _ => false

/-- Go `x > y` on float64. -/
def gt : F64 → F64 → Bool
  | fin a, fin b => decide (b < a)
  | pinf, fin _ => true
  | pinf, ninf => true
  | fin _, ninf => true
  | _, _ => false

/-- Go `x * y` on float64: the exact product, rounded to nearest even. -/
def mul : F64 → F64 → F64
  | fin a, fin b => ofRatio (decide (a < 0) != decide (b < 0)) (a.natAbs * b.natAbs) (unit * unit)
  | nan, _ => nan
  | _, nan => nan
  | fin a, pinf => if a = 0 then nan else if a < 0 then ninf else pinf
  | fin a, ninf => if a = 0 then nan else if a < 0 then pinf else ninf
  | pinf, fin b => if b = 0 then nan else if b < 0 then ninf else pinf
  | ninf, fin b => if b = 0 then nan else if b < 0 then pinf else ninf
  | pinf, pinf => pinf
  | ninf, ninf => pinf
  | pinf, ninf => ninf
  | ninf, pinf => ninf

/-- Go `math.Mod(x, y)`: the remainder of `x / y` with the sign of `x`, exact;
`NaN` for an infinite or `NaN` `x`, for `y = 0` and for a `NaN` `y`; `x`
itself for an infinite `y`. -/
def Mod : F64 → F64 → F64
  | fin a, fin b =>
    if b = 0 then nan
    else fin (if a < 0 then -((a.natAbs % b.natAbs : Nat) : Int) else ((a.natAbs % b.natAbs : Nat) : Int))
  | fin a, pinf => fin a
  | fin a, ninf => fin a
  | _, _ => nan

/-- Go `math.Ceil(x)`: the least integer value not below `x`; infinities and
`NaN` are returned as they are. -/
def Ceil : F64 → F64
  | fin z => fin (-((-z) / (unit : Int)) * (unit : Int))
  | x => x

end F64

/-- What a conversion `int(f)` yields when `f` is `NaN`, infinite or outside
the range of `int`: the Go specification leaves that value to the
implementation, so it is a parameter of the embedding. -/
structure Arch where
  convOutOfRange : F64 → Int

/-- Go `int(f)` for a float64 `f`: the fraction is discarded (truncation
towards zero); a value that does not fit is implementation-dependent. -/
def toInt (arch : Arch) : F64 → Int
  | F64.fin z =>
    let t : Int := if z < 0 then -((z.natAbs / F64.unit : Nat) : Int) else ((z.natAbs / F64.unit : Nat) : Int)
    if -(2 ^ 63 : Int) ≤ t ∧ t < 2 ^ 63 then t else wrap64 (arch.convOutOfRange (F64.fin z))
  | f => wrap64 (arch.convOutOfRange f)

/-! ## strconv.ParseFloat -/

namespace strconv

/-- Go `lower(c)`: `c | ('x' - 'X')`, the lower-case form of an ASCII letter. -/
def lower (c : Char) : Nat := c.toNat ||| 0x20

/-- Whether `c` is one of `'0' .. '9'`. -/
def isDigit (c : Char) : Bool := decide (48 ≤ c.toNat ∧ c.toNat ≤ 57)

/-- Whether `lower(c)` is one of `'a' .. 'f'`. -/
def isHexLetter (c : Char) : Bool := decide (97 ≤ lower c ∧ lower c ≤ 102)

/-- Go `commonPrefixLenIgnoreCase(s, prefix)`: how many leading bytes of `s`
match the lower-case `prefix`, upper-case ASCII letters of `s` lowered. -/
def commonPrefixLenIgnoreCase : List Char → List Char → Nat
  | c :: cs, p :: ps =>
    let c1 : Nat := if 65 ≤ c.toNat ∧ c.toNat ≤ 90 then c.toNat + 32 else c.toNat
    if c1 = p.toNat then commonPrefixLenIgnoreCase cs ps + 1 else 0
  | _, _ => 0

/-- The `'i', 'I'` case of Go `special`: `inf` or `infinity` in any case; the
result is the number of bytes taken, when the text starts with one. -/
def specialInf (s : List Char) : Option Nat :=
  let n := commonPrefixLenIgnoreCase s "infinity".data
  let n := if 3 < n ∧ n < 8 then 3 else n
  if n = 3 ∨ n = 8 then some n else none

/-- Go `special(s)`: the texts `NaN`, `Inf`, `Infinity` (any case, the last
two with an optional sign); the value and the number of bytes taken. -/
def special (s : List Char) : Option (F64 × Nat) :=
  match s with
  | [] => none
  | c :: cs =>
    if c = '+' then (specialInf cs).map (fun n => (F64.pinf, 1 + n))
    else if c = '-' then (specialInf cs).map (fun n => (F64.ninf, 1 + n))
    else if c = 'i' ∨ c = 'I' then (specialInf s).map (fun n => (F64.pinf, n))
    else if c = 'n' ∨ c = 'N' then
      (if commonPrefixLenIgnoreCase s "nan".data = 3 then some (F64.nan, 3) else none)
    else none

/-- The variables of the digit loop of Go `readFloat`.  `mantissa` holds all
the digits read (Go keeps the first 19 and the flag `trunc`, and goes back
to the text when they do not decide the rounding), so `nd` is also the
number of mantissa digits. -/
structure Scan where
  mantissa : Nat
  nd : Nat
  dp : Int
  sawdot : Bool
  sawdigits : Bool
  underscores : Bool
deriving DecidableEq, Repr

/-- The digit loop of `readFloat` (`loop:`), in base 10 or 16: the variables at
the byte that ends the mantissa, and the text from that byte on. -/
def scanMantissa (hex : Bool) : List Char → Scan → Scan × List Char
  | [], st => (st, [])
  | c :: cs, st =>
    if c = '_' then scanMantissa hex cs { st with underscores := true }
    else if c = '.' then
      (if st.sawdot then (st, c :: cs)
       else scanMantissa hex cs { st with sawdot := true, dp := st.nd })
    else if isDigit c then
      (if c = '0' ∧ st.nd = 0 then
         scanMantissa hex cs { st with sawdigits := true, dp := st.dp - 1 }
       else
         scanMantissa hex cs
           { st with sawdigits := true, nd := st.nd + 1,
                     mantissa := st.mantissa * (if hex then 16 else 10) + (c.toNat - 48) })
    else if hex ∧ isHexLetter c then
      scanMantissa hex cs
        { st with sawdigits := true, nd := st.nd + 1,
                  mantissa := st.mantissa * 16 + (lower c - 97 + 10) }
    else (st, c :: cs)

/-- The exponent loop of `readFloat`: digits and underscores; the value stops
growing once it has reached 10000.  Gives the exponent, whether an underscore
was seen, and the text left. -/
def scanExponent : List Char → Nat → Bool → Nat × Bool × List Char
  | [], e, us => (e, us, [])
  | c :: cs, e, us =>
    if c = '_' then scanExponent cs e true
    else if isDigit c then scanExponent cs (if e < 10000 then e * 10 + (c.toNat - 48) else e) us
    else (e, us, c :: cs)

/-- Go `underscoreOK` after the sign and base prefix: `saw` is `0` at the
beginning (`'^'`), `1` after a digit, `2` after an underscore, `3` after
anything else. -/
def underscoreScan (hex : Bool) : List Char → Nat → Bool
  | [], saw => decide (saw ≠ 2)
  | c :: cs, saw =>
    if isDigit c ∨ (hex ∧ isHexLetter c) then underscoreScan hex cs 1
    else if c = '_' then (if saw ≠ 1 then false else underscoreScan hex cs 2)
    else if saw = 2 then false
    else underscoreScan hex cs 3

/-- Go `underscoreOK(s)`: underscores only between digits, or between a base
prefix and a digit. -/
def underscoreOK (s : List Char) : Bool :=
  let s := match s with
    | c :: cs => if c = '-' ∨ c = '+' then cs else s
    | [] => s
  match s with
  | c0 :: c1 :: cs =>
    if c0 = '0' ∧ (lower c1 = 98 ∨ lower c1 = 111 ∨ lower c1 = 120) then
      underscoreScan (decide (lower c1 = 120)) cs 1
    else underscoreScan false s 0
  | _ => underscoreScan false s 0

/-- What Go `readFloat` finds in a text it accepts: the sign, the digits as a
number, the exponent of the base (10, or 2 for a hexadecimal mantissa). -/
structure Parsed where
  neg : Bool
  hex : Bool
  mantissa : Nat
  exp : Int
deriving DecidableEq, Repr

/-- The test for a hexadecimal mantissa in `readFloat`:
`i+2 < len(s) && s[i] == '0' && lower(s[i+1]) == 'x'`. -/
def hexPrefix (s : List Char) : Bool :=
  match s with
  | a :: b :: _ :: _ => decide (a = '0' ∧ lower b = 120)
  | _ => false

/-- The end of `readFloat`: `exp = dp - ndMant` for a mantissa that is not
zero, the check of the underscores in the text read (all of `s` but `rest`),
and `ok = true`. -/
def finishFloat (s : List Char) (neg hex : Bool) (st : Scan) (dp : Int) (us : Bool)
    (rest : List Char) : Option (Parsed × List Char) :=
  if us ∧ ¬ underscoreOK (s.take (s.length - rest.length)) then none
  else
    some (⟨neg, hex, st.mantissa,
      if st.mantissa ≠ 0 then dp - (if hex then (st.nd : Int) * 4 else st.nd) else 0⟩, rest)

/-- The optional exponent of `readFloat`, from the byte `s3` that ended the
mantissa: `e` or `p`, an optional sign, at least one digit.  A hexadecimal
mantissa must have one. -/
def readExponent (s : List Char) (neg hex : Bool) (st : Scan) (dp : Int) (s3 : List Char) :
    Option (Parsed × List Char) :=
  match s3 with
  | c :: s4 =>
    if lower c = (if hex then 112 else 101) then
      match s4 with
      | [] => none
      | d :: s5 =>
        let esign : Int := if d = '-' then -1 else 1
        let s6 := if d = '+' ∨ d = '-' then s5 else s4
        match s6 with
        | [] => none
        | d1 :: _ =>
          if ¬ isDigit d1 then none
          else
            let (e, us, rest) := scanExponent s6 0 st.underscores
            finishFloat s neg hex st (dp + (e : Int) * esign) us rest
    else if hex then none
    else finishFloat s neg hex st dp st.underscores s3
  | [] => if hex then none else finishFloat s neg hex st dp st.underscores s3

/-- Go `readFloat(s)`: the number at the start of `s` and the text after it;
`none` where Go returns `ok = false`. -/
def readFloat (s : List Char) : Option (Parsed × List Char) :=
  match s with
  | [] => none
  | c0 :: _ =>
    let neg := decide (c0 = '-')
    let s1 := if c0 = '+' ∨ c0 = '-' then s.drop 1 else s
    let hex := hexPrefix s1
    let s2 := if hex then s1.drop 2 else s1
    let scan := scanMantissa hex s2 ⟨0, 0, 0, false, false, false⟩
    if ¬ scan.1.sawdigits then none
    else
      let dp : Int := if scan.1.sawdot then scan.1.dp else scan.1.nd
      let dp : Int := if hex then dp * 4 else dp
      readExponent s neg hex scan.1 dp scan.2

/-- The float64 nearest to the number Go `readFloat` found: the decimal
conversion and `atofHex` both round to nearest even, and overflow gives an
infinity. -/
def Parsed.toF64 (p : Parsed) : F64 :=
  let b : Nat := if p.hex then 2 else 10
  if 0 ≤ p.exp then F64.ofRatio p.neg (p.mantissa * b ^ p.exp.toNat) 1
  else F64.ofRatio p.neg p.mantissa (b ^ (-p.exp).toNat)

/-- The `Err` of a Go `*strconv.NumError`. -/
inductive NumError where
  | ErrSyntax
  | ErrRange
deriving DecidableEq, Repr

/-- Go `strconv.ParseFloat(s, 64)`: the value and the error.  A text that is
not a number in full gives `0` and `ErrSyntax`; a number too large for a
float64 gives an infinity and `ErrRange`. -/
def ParseFloat (s : String) : F64 × Option NumError :=
  match special s.data with
  | some (f, n) => if n ≠ s.data.length then (F64.zero, some .ErrSyntax) else (f, none)
  | none =>
    match readFloat s.data with
    | none => (F64.zero, some .ErrSyntax)
    | some (p, rest) =>
      if rest ≠ [] then (F64.zero, some .ErrSyntax)
      else
        let f := p.toF64
        if f = F64.pinf ∨ f = F64.ninf then (f, some .ErrRange) else (f, none)

end strconv

/-! ## strings -/

namespace strings

/-- Go `strings.ReplaceAll(s, old, new)` for a one-character `old`: every
occurrence of that character gives way to `new`. -/
def ReplaceAll (s : List Char) (old : Char) (new : List Char) : List Char :=
  match s with
  | [] => []
  | c :: cs => if c = old then new ++ ReplaceAll cs old new else c :: ReplaceAll cs old new

/-- Go `unicode.IsSpace(r)`: the white space of Unicode. -/
def IsSpace (c : Char) : Bool :=
  let n := c.toNat
  decide ((9 ≤ n ∧ n ≤ 13) ∨ n = 0x20 ∨ n = 0x85 ∨ n = 0xA0 ∨ n = 0x1680 ∨
    (0x2000 ≤ n ∧ n ≤ 0x200A) ∨ n = 0x2028 ∨ n = 0x2029 ∨ n = 0x202F ∨ n = 0x205F ∨
    n = 0x3000)

/-- Go `strings.TrimSpace(s)`: `s` without its leading and trailing white space. -/
def TrimSpace (s : List Char) : List Char :=
  ((s.dropWhile IsSpace).reverse.dropWhile IsSpace).reverse

/-- The number of bytes of the UTF-8 encoding of a rune. -/
def runeLen (c : Char) : Nat :=
  if c.toNat < 0x80 then 1 else if c.toNat < 0x800 then 2 else if c.toNat < 0x10000 then 3 else 4

/-- Go `len(s)` for a string: its number of bytes. -/
def len : List Char → Nat
  | [] => 0
  | c :: cs => runeLen c + len cs

end strings

/-! ## time.Parse -/

namespace time

/-- A Go `time.Time` in UTC with whole minutes: the program builds no other
(neither layout has seconds or a zone). -/
structure Time where
  year : Nat
  month : Nat
  day : Nat
  hour : Nat
  min : Nat
deriving DecidableEq, Repr

/-- The zero `Time{}`: January 1, year 1, 00:00 UTC.  `time.Parse` returns it
with every error. -/
def Time.zero : Time := ⟨1, 1, 1, 0, 0⟩

/-- Go `t.Day()`. -/
def Time.Day (t : Time) : Nat := t.day

/-- Go `t.Before(u)`: `t` is an earlier instant than `u`. -/
def Time.Before (t u : Time) : Bool :=
  decide (t.year < u.year ∨ (t.year = u.year ∧ (t.month < u.month ∨ (t.month = u.month ∧
    (t.day < u.day ∨ (t.day = u.day ∧ (t.hour < u.hour ∨ (t.hour = u.hour ∧ t.min < u.min))))))))

/-- Go `t.After(u)`: `t` is a later instant than `u`. -/
def Time.After (t u : Time) : Bool := u.Before t

/-- Go `time.Date(year, month, day, hour, min, 0, 0, time.UTC)` for arguments
in their normal ranges. -/
def Date (year month day hour min : Nat) : Time := ⟨year, month, day, hour, min⟩

/-- The elements of a layout that the two layouts of the program use. -/
inductive Std where
  | stdLongYear
  | stdZeroMonth
  | stdZeroDay
  | stdHour
  | stdZeroMinute
deriving DecidableEq, Repr

/-- The layout `"2006-01-02"` as `nextStdChunk` cuts it: each element with the
literal text before it. -/
def layoutDate : List (List Char × Std) :=
  [([], .stdLongYear), (['-'], .stdZeroMonth), (['-'], .stdZeroDay)]

/-- The layout `"15:04"` as `nextStdChunk` cuts it. -/
def layoutClock : List (List Char × Std) :=
  [([], .stdHour), ([':'], .stdZeroMinute)]

/-- Whether `c` is a decimal digit. -/
def isDigit (c : Char) : Bool := decide (48 ≤ c.toNat ∧ c.toNat ≤ 57)

/-- Go `getnum(s, fixed)`: a number of one or two digits (two when `fixed`)
at the start of `s`, and the text after it. -/
def getnum (s : List Char) (fixed : Bool) : Option (Nat × List Char) :=
  match s with
  | [] => none
  | a :: rest =>
    if ¬ isDigit a then none
    else match rest with
      | b :: rest2 =>
        if isDigit b then some ((a.toNat - 48) * 10 + (b.toNat - 48), rest2)
        else if fixed then none else some (a.toNat - 48, rest)
      | [] => if fixed then none else some (a.toNat - 48, rest)

/-- Go `skip(value, prefix)` for a prefix without spaces: the literal text must
be there. -/
def skip (value pre : List Char) : Option (List Char) :=
  match pre with
  | [] => some value
  | p :: ps =>
    match value with
    | [] => none
    | v :: vs => if v = p then skip vs ps else none

/-- The fields `time.Parse` collects; `month` and `day` start out unset (`-1`
in Go). -/
structure Fields where
  year : Nat
  month : Option Nat
  day : Option Nat
  hour : Nat
  min : Nat
deriving DecidableEq, Repr

/-- One element of the layout read off the value, as in the `switch` of
`time.Parse`; `none` on a syntax or range error. -/
def parseStd (std : Std) (value : List Char) (f : Fields) : Option (Fields × List Char) :=
  match std with
  | .stdLongYear =>
    match value with
    | a :: b :: c :: d :: rest =>
      if isDigit a ∧ isDigit b ∧ isDigit c ∧ isDigit d then
        some ({ f with year := (a.toNat - 48) * 1000 + (b.toNat - 48) * 100 +
                  (c.toNat - 48) * 10 + (d.toNat - 48) }, rest)
      else none
    | _ => none
  | .stdZeroMonth =>
    match getnum value true with
    | some (m, rest) => if m = 0 ∨ 12 < m then none else some ({ f with month := some m }, rest)
    | none => none
  | .stdZeroDay =>
    match getnum value true with
    | some (d, rest) => some ({ f with day := some d }, rest)
    | none => none
  | .stdHour =>
    match getnum value false with
    | some (h, rest) => if 24 ≤ h then none else some ({ f with hour := h }, rest)
    | none => none
  | .stdZeroMinute =>
    match getnum value true with
    | some (m, rest) => if 60 ≤ m then none else some ({ f with min := m }, rest)
    | none => none

/-- The loop of `time.Parse` over the elements of the layout. -/
def parseChunks : List (List Char × Std) → List Char → Fields → Option (Fields × List Char)
  | [], value, f => some (f, value)
  | (pre, std) :: layout, value, f =>
    match skip value pre with
    | none => none
    | some value1 =>
      match parseStd std value1 f with
      | none => none
      | some (f1, value2) => parseChunks layout value2 f1

/-- Go `isLeap(year)`. -/
def isLeap (year : Nat) : Bool := decide (year % 4 = 0 ∧ (year % 100 ≠ 0 ∨ year % 400 = 0))

/-- Go `daysIn(month, year)`. -/
def daysIn (month year : Nat) : Nat :=
  if month = 2 then (if isLeap year then 29 else 28)
  else if month = 4 ∨ month = 6 ∨ month = 9 ∨ month = 11 then 30 else 31

/-- Go `time.Parse(layout, value)` for the two layouts of the program: the
time and whether it is returned with an error.  Text after the last element
is an error; a month or day the layout does not have is 1; the day must
exist in its month; every error comes with the zero `Time`. -/
def Parse (layout : List (List Char × Std)) (value : String) : Time × Bool :=
  match parseChunks layout value.data ⟨0, none, none, 0, 0⟩ with
  | none => (Time.zero, true)
  | some (f, rest) =>
    if rest ≠ [] then (Time.zero, true)
    else
      let month := f.month.getD 1
      let day := f.day.getD 1
      if day < 1 ∨ daysIn month f.year < day then (Time.zero, true)
      else (Date f.year month day f.hour f.min, false)

end time

/-! ## The program -/

/-- The loop of rule 1: `for _, char := range trimmedRetailer`, counting the
runes that are ASCII letters or digits.  A Go string has fewer than `2 ^ 63`
bytes, so the counter `pointsRule1` never wraps. -/
def countAlnum : List Char → Int → Int
  | [], pointsRule1 => pointsRule1
  | char :: rest, pointsRule1 =>
    if ('a' ≤ char ∧ char ≤ 'z') ∨ ('A' ≤ char ∧ char ≤ 'Z') ∨ ('0' ≤ char ∧ char ≤ '9') then
      countAlnum rest (pointsRule1 + 1)
    else countAlnum rest pointsRule1

/-- Rule 1, lines 73-82: the spaces are taken out of the retailer name, the
letters and digits counted, and the count added to `points`. -/
def rule1 (receipt : Receipt) (points : Int) : Int :=
  let trimmedRetailer := strings.ReplaceAll receipt.Retailer.data ' ' []
  let pointsRule1 := countAlnum trimmedRetailer 0
  add64 points pointsRule1

/-- Rule 2, lines 85-90: `total, _ := strconv.ParseFloat(receipt.Total, 64)`
and 50 points when `math.Mod(total, 1.0) == 0`. -/
def rule2 (receipt : Receipt) (points : Int) : Int :=
  let total := (strconv.ParseFloat receipt.Total).1
  if F64.eq (F64.Mod total F64.one) F64.zero then add64 points 50 else points

/-- Rule 3, lines 93-96: 25 points when `total > 0.0` and
`math.Mod(total, 0.25) == 0.0`. -/
def rule3 (receipt : Receipt) (points : Int) : Int :=
  let total := (strconv.ParseFloat receipt.Total).1
  if F64.gt total F64.zero ∧ F64.eq (F64.Mod total F64.quarter) F64.zero then add64 points 25
  else points

/-- Rule 4, lines 99-101: `5 * (len(receipt.Items) / 2)`.  A slice of items
has fewer than `2 ^ 59` elements, so the product never wraps. -/
def rule4 (receipt : Receipt) (points : Int) : Int :=
  let pointsRule4 : Int := 5 * ((receipt.Items.length / 2 : Nat) : Int)
  add64 points pointsRule4

/-- The body of the loop of rule 5, lines 105-113, for one item. -/
def rule5Item (arch : Arch) (item : Item) (points : Int) : Int :=
  let descriptionLength := strings.len (strings.TrimSpace item.ShortDescription.data)
  if descriptionLength % 3 = 0 then
    let price := (strconv.ParseFloat item.Price).1
    let descriptionPoints := toInt arch (F64.Ceil (F64.mul price F64.fifth))
    add64 points descriptionPoints
  else points

/-- Rule 5, lines 104-115: `for _, item := range receipt.Items`. -/
def rule5Loop (arch : Arch) : List Item → Int → Int
  | [], points => points
  | item :: rest, points => rule5Loop arch rest (rule5Item arch item points)

/-- Rule 5 on a receipt. -/
def rule5 (arch : Arch) (receipt : Receipt) (points : Int) : Int :=
  rule5Loop arch receipt.Items points

/-- Rule 6, lines 118-123: `purchaseDate, _ := time.Parse("2006-01-02", ...)`
and 6 points when `purchaseDate.Day()%2 != 0`. -/
def rule6 (receipt : Receipt) (points : Int) : Int :=
  let purchaseDate := (time.Parse time.layoutDate receipt.PurchaseDate).1
  if purchaseDate.Day % 2 ≠ 0 then add64 points 6 else points

/-- Rule 7, lines 125-129: `purchaseTime, _ := time.Parse("15:04", ...)` and 10
points when it is after `time.Date(0, 1, 1, 14, 0, 0, 0, time.UTC)` and before
`time.Date(0, 1, 1, 16, 0, 0, 0, time.UTC)`. -/
def rule7 (receipt : Receipt) (points : Int) : Int :=
  let purchaseTime := (time.Parse time.layoutClock receipt.PurchaseTime).1
  if purchaseTime.After (time.Date 0 1 1 14 0) ∧ purchaseTime.Before (time.Date 0 1 1 16 0) then
    add64 points 10
  else points

/-- The body of `CalculatePoints` after the lookup: `points := 0`, then the
seven rules in the order of the source, each adding to `points`. -/
def scoreReceipt (arch : Arch) (receipt : Receipt) : Int :=
  let points : Int := 0
  let points := rule1 receipt points
  let points := rule2 receipt points
  let points := rule3 receipt points
  let points := rule4 receipt points
  let points := rule5 arch receipt points
  let points := rule6 receipt points
  let points := rule7 receipt points
  points

/-- Go `func CalculatePoints(receiptID string) int`: `receipt :=
receiptData[receiptID]`, then the rules.  The global map is an argument; it is
only read. -/
def CalculatePoints (arch : Arch) (receiptData : Store) (receiptID : String) : Int :=
  let receipt := receiptData.index receiptID
  scoreReceipt arch receipt

/-- What a handler writes: the status code and the body. -/
inductive Response where
  | error (status : Nat) (message : String)
  | jsonInt (status : Nat) (value : Int)
  | jsonId (status : Nat) (id : String)
deriving DecidableEq, Repr

/-- The status code of a response. -/
def Response.status : Response → Nat
  | .error st _ => st
  | .jsonInt st _ => st
  | .jsonId st _ => st

/-- Go `func GetPointsHandler`: `points := CalculatePoints(receiptID)`; when
`points == 0`, `http.Error(w, "Receipt not found", http.StatusNotFound)`;
otherwise the points are encoded as JSON (status 200). -/
def GetPointsHandler (arch : Arch) (receiptData : Store) (receiptID : String) : Response :=
  let points := CalculatePoints arch receiptData receiptID
  if points = 0 then Response.error 404 "Receipt not found"
  else Response.jsonInt 200 points

/-- The state the handlers share: the global map, and how many identifiers
`GenerateReceiptID` has produced so far. -/
structure Server where
  receiptData : Store
  generated : Nat

/-- Go `func GenerateReceiptID() string`: `uuid.New().String()`.  The
identifiers the generator hands out are a parameter `uuid`, the `n`-th call
returning `uuid n`. -/
def GenerateReceiptID (uuid : Nat → String) (sv : Server) : String × Server :=
  (uuid sv.generated, { sv with generated := sv.generated + 1 })

/-- Go `func ProcessReceiptHandler`.  `decoded` is the outcome of
`json.NewDecoder(r.Body).Decode(&receipt)`: the receipt, or the error text.
On an error the handler answers 400 and returns; otherwise it generates an
identifier, stores the receipt under it and answers with the identifier. -/
def ProcessReceiptHandler (uuid : Nat → String) (decoded : Except String Receipt)
    (sv : Server) : Response × Server :=
  match decoded with
  | .error err => (Response.error 400 err, sv)
  | .ok receipt =>
    let (id, sv1) := GenerateReceiptID uuid sv
    (Response.jsonId 200 id, { sv1 with receiptData := sv1.receiptData.assign id receipt })

/-! ## Notions the properties are stated with -/

/-- The amd64 implementation: a conversion to `int` that does not fit yields
the smallest `int`. -/
def Arch.amd64 : Arch := ⟨fun _ => -(2 ^ 63)⟩

/-- The runes the retailer rule is meant to count: ASCII letters and ASCII
digits. -/
def asciiAlnum (c : Char) : Bool :=
  decide ((97 ≤ c.toNat ∧ c.toNat ≤ 122) ∨ (65 ≤ c.toNat ∧ c.toNat ≤ 90) ∨
    (48 ≤ c.toNat ∧ c.toNat ≤ 57))

/-- A receipt that has nothing but a retailer name. -/
def Receipt.ofRetailer (retailer : String) : Receipt := ⟨retailer, "", "", [], ""⟩

/-- A receipt that has nothing but a total. -/
def Receipt.ofTotal (total : String) : Receipt := ⟨"", "", "", [], total⟩

/-- A receipt that has nothing but items. -/
def Receipt.ofItems (items : List Item) : Receipt := ⟨"", "", "", items, ""⟩

/-- A receipt that has nothing but a purchase date. -/
def Receipt.ofDate (date : String) : Receipt := ⟨"", date, "", [], ""⟩

/-- A receipt that has nothing but a purchase time. -/
def Receipt.ofTime (time : String) : Receipt := ⟨"", "", time, [], ""⟩

/-- Rule 1 in isolation: what it adds to zero points, given the retailer. -/
def term1 (retailer : String) : Int := rule1 (Receipt.ofRetailer retailer) 0

/-- Rule 2 in isolation, given the total. -/
def term2 (total : String) : Int := rule2 (Receipt.ofTotal total) 0

/-- Rule 3 in isolation, given the total. -/
def term3 (total : String) : Int := rule3 (Receipt.ofTotal total) 0

/-- Rule 4 in isolation, given the number of items (the items are blank). -/
def term4 (n : Nat) : Int := rule4 (Receipt.ofItems (List.replicate n ⟨"", ""⟩)) 0

/-- Rule 5 in isolation, given the items. -/
def term5 (arch : Arch) (items : List Item) : Int := rule5 arch (Receipt.ofItems items) 0

/-- Rule 6 in isolation, given the purchase date. -/
def term6 (date : String) : Int := rule6 (Receipt.ofDate date) 0

/-- Rule 7 in isolation, given the purchase time. -/
def term7 (time : String) : Int := rule7 (Receipt.ofTime time) 0

/-- A run of `ProcessReceiptHandler` calls, one for each decoded body. -/
def submitAll (uuid : Nat → String) : List (Except String Receipt) → Server → Server
  | [], sv => sv
  | d :: ds, sv => submitAll uuid ds (ProcessReceiptHandler uuid d sv).2

/-- Every identifier generated during a run of submissions is, when it is
generated, not a key of the store. -/
def FreshRun (uuid : Nat → String) : List (Except String Receipt) → Server → Prop
  | [], _ => True
  | .error e :: ds, sv => FreshRun uuid ds (ProcessReceiptHandler uuid (.error e) sv).2
  | .ok r :: ds, sv =>
    sv.receiptData (uuid sv.generated) = none ∧
      FreshRun uuid ds (ProcessReceiptHandler uuid (.ok r) sv).2

/-- A stored receipt that scores zero: no retailer, a total that is neither
whole nor a multiple of 0.25, no items, an even day, a time outside the
afternoon window. -/
def zeroScoreReceipt : Receipt := ⟨"", "2022-01-02", "13:00", [], "0.1"⟩

/-- A receipt with one item of negative price. -/
def negativePriceReceipt : Receipt := ⟨"", "2022-01-02", "13:00", [⟨"abc", "-100"⟩], "0.1"⟩

/-- A generator that never repeats itself: the `n`-th identifier is `n + 1`
letters long. -/
def sampleUuid (n : Nat) : String := String.mk (List.replicate (n + 1) 'u')

/-- What rule 5 adds to zero points for one item. -/
def itemPoints (arch : Arch) (item : Item) : Int := rule5Item arch item 0

/-- The contributions of the items under rule 5, added up without wrapping. -/
def itemsSum (arch : Arch) (items : List Item) : Int := (items.map (itemPoints arch)).sum

/-- A value in the range of a Go `int`. -/
def InRange (x : Int) : Prop := -(2 ^ 63 : Int) ≤ x ∧ x < 2 ^ 63

instance (x : Int) : Decidable (InRange x) :=
  inferInstanceAs (Decidable (-(2 ^ 63 : Int) ≤ x ∧ x < 2 ^ 63))

/-- Weights of a binary search: each is one more than the sum of those after it. -/
def F64.BinaryWeights : List Nat → Prop
  | [] => True
  | w :: ws => w = ws.sum + 1 ∧ F64.BinaryWeights ws

/-- A plain decimal text: an optional minus sign, digits of the integer part,
and (when there are any) a point and the digits of the fraction. -/
structure DecimalText where
  neg : Bool
  intDigits : List (Fin 10)
  fracDigits : List (Fin 10)
deriving DecidableEq, Repr

/-- The character of a decimal digit. -/
def digitChar (d : Fin 10) : Char := Char.ofNat (48 + d.val)

/-- The number a list of decimal digits writes, continuing from `acc`. -/
def digitsValue (ds : List (Fin 10)) (acc : Nat) : Nat :=
  ds.foldl (fun a d => a * 10 + d.val) acc

/-- The characters of a decimal text after its sign. -/
def unsignedChars (ip fp : List (Fin 10)) : List Char :=
  ip.map digitChar ++ (if fp.isEmpty then [] else '.' :: fp.map digitChar)

/-- The characters of a decimal text. -/
def DecimalText.chars (t : DecimalText) : List Char :=
  (if t.neg then ['-'] else []) ++ unsignedChars t.intDigits t.fracDigits

/-- The text itself. -/
def DecimalText.text (t : DecimalText) : String := String.mk t.chars

/-- All the digits of the text read as one number. -/
def DecimalText.digits (t : DecimalText) : Nat := digitsValue (t.intDigits ++ t.fracDigits) 0

/-- The exact decimal value of the text. -/
def DecimalText.value (t : DecimalText) : ℚ :=
  (if t.neg then -1 else 1) * ((t.digits : ℚ) / 10 ^ t.fracDigits.length)

/-- The state of the digit loop of `readFloat` after one more decimal digit. -/
def scanDigit (st : strconv.Scan) (d : Fin 10) : strconv.Scan :=
  if d.val = 0 ∧ st.nd = 0 then { st with sawdigits := true, dp := st.dp - 1 }
  else { st with sawdigits := true, nd := st.nd + 1, mantissa := st.mantissa * 10 + d.val }

/-- The decimal text `1.0000000000000000000001`. -/
def longOne : DecimalText :=
  ⟨false, [1], [0, 0, 0, 0, 0, 0, 0, 0, 0, 0, 0, 0, 0, 0, 0, 0, 0, 0, 0, 0, 0, 1]⟩

/-- The decimal text `0.2500000000000000000001`. -/
def longQuarter : DecimalText :=
  ⟨false, [0], [2, 5, 0, 0, 0, 0, 0, 0, 0, 0, 0, 0, 0, 0, 0, 0, 0, 0, 0, 0, 0, 1]⟩

/-- The decimal text `5.0000000000000001`. -/
def longFive : DecimalText :=
  ⟨false, [5], [0, 0, 0, 0, 0, 0, 0, 0, 0, 0, 0, 0, 0, 0, 0, 1]⟩

/-- The seven contributions of a receipt added up without wrapping: the count
of rule 1, what rules 2 and 3 add, five times the pairs of items, the points
of the items under rule 5, and what rules 6 and 7 add. -/
def exactSum (arch : Arch) (r : Receipt) : Int :=
  ((r.Retailer.data.filter asciiAlnum).length : Int) + term2 r.Total + term3 r.Total +
    5 * ((r.Items.length / 2 : Nat) : Int) + itemsSum arch r.Items + term6 r.PurchaseDate +
    term7 r.PurchaseTime

/-- A receipt of the retailer "Target" with five items; it scores 28. -/
def targetReceipt : Receipt :=
  ⟨"Target", "2022-01-01", "13:01",
    [⟨"Mountain Dew 12PK", "6.49"⟩, ⟨"Emils Cheese Pizza", "12.25"⟩,
     ⟨"Knorr Creamy Chicken", "1.26"⟩, ⟨"Doritos Nacho Cheese", "3.35"⟩,
     ⟨"   Klarbrunn 12-PK 12 FL OZ  ", "12.00"⟩], "35.35"⟩

/-- The two characters that write a number below 100 in decimal, with a
leading zero when it is below 10. -/
def twoDigits (n : Nat) : List Char := [Char.ofNat (48 + n / 10), Char.ofNat (48 + n % 10)]

/-- The four characters that write a number below 10000 in decimal, with
leading zeros. -/
def fourDigits (n : Nat) : List Char :=
  [Char.ofNat (48 + n / 1000), Char.ofNat (48 + n / 100 % 10), Char.ofNat (48 + n / 10 % 10),
    Char.ofNat (48 + n % 10)]

/-- The text `YYYY-MM-DD` of a date. -/
def dateText (y m d : Nat) : String :=
  String.mk (fourDigits y ++ '-' :: (twoDigits m ++ '-' :: twoDigits d))

/-- The text `HH:MM` of a time of day. -/
def clockText (h m : Nat) : String := String.mk (twoDigits h ++ ':' :: twoDigits m)

/-- The number of days of a month in the Gregorian calendar: a year is a leap
year when it is a multiple of 4 and not of 100, or a multiple of 400. -/
def monthLength (y m : Nat) : Nat :=
  match m with
  | 1 => 31
  | 2 => if (y % 4 = 0 ∧ y % 100 ≠ 0) ∨ y % 400 = 0 then 29 else 28
  | 3 => 31
  | 4 => 30
  | 5 => 31
  | 6 => 30
  | 7 => 31
  | 8 => 31
  | 9 => 30
  | 10 => 31
  | 11 => 30
  | 12 => 31
  | _ => 0

/-- A valid calendar date that `YYYY-MM-DD` can write: a year of four
digits, a month from 1 to 12, a day that exists in that month. -/
def ValidDate (y m d : Nat) : Prop :=
  y ≤ 9999 ∧ 1 ≤ m ∧ m ≤ 12 ∧ 1 ≤ d ∧ d ≤ monthLength y m

instance (y m d : Nat) : Decidable (ValidDate y m d) :=
  inferInstanceAs (Decidable (y ≤ 9999 ∧ 1 ≤ m ∧ m ≤ 12 ∧ 1 ≤ d ∧ d ≤ monthLength y m))

/-! ## Go `int` arithmetic -/

theorem wrap64_of_range (x : Int) (h1 : -(2 ^ 63 : Int) ≤ x) (h2 : x < 2 ^ 63) :
    wrap64 x = x := by
  unfold wrap64
  norm_num at h1 h2 ⊢
  omega

theorem wrap64_wrap64_add (a b : Int) : wrap64 (wrap64 a + b) = wrap64 (a + b) := by
  unfold wrap64
  norm_num
  omega

theorem wrap64_add_wrap64 (a b : Int) : wrap64 (a + wrap64 b) = wrap64 (a + b) := by
  unfold wrap64
  norm_num
  omega

theorem wrap64_range (x : Int) : -(2 ^ 63 : Int) ≤ wrap64 x ∧ wrap64 x < 2 ^ 63 := by
  unfold wrap64
  norm_num
  omega

theorem add64_zero_left (x : Int) : add64 0 x = wrap64 x := by
  simp [add64]

theorem InRange_wrap64 (x : Int) : InRange (wrap64 x) := wrap64_range x

theorem wrap64_of_InRange {x : Int} (h : InRange x) : wrap64 x = x :=
  wrap64_of_range x h.1 h.2

theorem wrap64_add64 (a b : Int) : wrap64 (add64 a b) = wrap64 (a + b) := by
  unfold add64
  exact wrap64_of_InRange (InRange_wrap64 _)

theorem InRange_zero : InRange 0 := by
  unfold InRange
  norm_num

/-! ## Rounding to float64 -/

namespace F64

theorem geTwoPow_iff (n d : Nat) (hd : 0 < d) (e : Int) :
    geTwoPow n d e = true ↔ (2 : ℚ) ^ e ≤ (n : ℚ) / d := by
  have hd' : (0 : ℚ) < d := by exact_mod_cast hd
  unfold geTwoPow
  by_cases he : 0 ≤ e
  · obtain ⟨k, rfl⟩ := Int.eq_ofNat_of_zero_le he
    simp only [he, if_true, decide_eq_true_eq, Int.toNat_ofNat, zpow_natCast]
    rw [le_div_iff₀ hd']
    constructor
    · intro h
      have : ((d * 2 ^ k : Nat) : ℚ) ≤ n := by exact_mod_cast h
      push_cast at this
      linarith
    · intro h
      have : ((d * 2 ^ k : Nat) : ℚ) ≤ n := by push_cast; linarith
      exact_mod_cast this
  · have hneg : e < 0 := not_le.mp he
    obtain ⟨k, hk⟩ := Int.eq_ofNat_of_zero_le (show 0 ≤ -e by omega)
    have he2 : e = -(k : Int) := by omega
    subst he2
    simp only [he, if_false, decide_eq_true_eq, neg_neg, Int.toNat_ofNat, zpow_neg,
      zpow_natCast]
    have h2 : (0 : ℚ) < 2 ^ k := by positivity
    rw [le_div_iff₀ hd', inv_mul_le_iff₀ h2]
    constructor
    · intro h
      have : ((d : Nat) : ℚ) ≤ ((n * 2 ^ k : Nat) : ℚ) := by exact_mod_cast h
      push_cast at this
      linarith
    · intro h
      have : ((d : Nat) : ℚ) ≤ ((n * 2 ^ k : Nat) : ℚ) := by push_cast; linarith
      exact_mod_cast this

theorem geTwoPow_mono (n d : Nat) (hd : 0 < d) (e e1 : Int) (hle : e ≤ e1)
    (h : geTwoPow n d e1 = true) : geTwoPow n d e = true := by
  rw [geTwoPow_iff n d hd] at h ⊢
  exact le_trans (zpow_le_zpow_right₀ (by norm_num) hle) h

theorem searchExp_spec (n d : Nat) (hd : 0 < d) (T : Int) :
    ∀ (ws : List Nat) (lo : Int), BinaryWeights ws → lo + (ws.sum : Int) ≤ T →
      (∀ e, lo + (ws.sum : Int) < e → e ≤ T → geTwoPow n d e = false) →
      lo ≤ searchExp n d ws lo ∧ searchExp n d ws lo ≤ T ∧
        (searchExp n d ws lo = lo ∨ geTwoPow n d (searchExp n d ws lo) = true) ∧
        (∀ e, searchExp n d ws lo < e → e ≤ T → geTwoPow n d e = false) := by
  intro ws
  induction ws with
  | nil =>
    intro lo _ hT hup
    simp only [List.sum_nil, Nat.cast_zero, add_zero] at hT hup
    exact ⟨le_refl _, hT, Or.inl rfl, hup⟩
  | cons w ws ih =>
    intro lo hb hT hup
    obtain ⟨hw, hbs⟩ := hb
    simp only [List.sum_cons, Nat.cast_add] at hT hup
    unfold searchExp
    by_cases hge : geTwoPow n d (lo + w) = true
    · simp only [hge, if_true]
      have := ih (lo + w) hbs (by omega) (fun e h1 h2 => hup e (by omega) h2)
      obtain ⟨h1, h2, h3, h4⟩ := this
      refine ⟨by omega, h2, Or.inr ?_, h4⟩
      rcases h3 with h3 | h3
      · rw [h3]; exact hge
      · exact h3
    · simp only [hge]
      have hge' : geTwoPow n d (lo + w) = false := by simpa using hge
      have := ih lo hbs (by omega) (fun e h1 h2 => by
        by_contra hc
        have hc' : geTwoPow n d e = true := by simpa using hc
        have hw' : (w : Int) = (ws.sum : Int) + 1 := by exact_mod_cast hw
        have := geTwoPow_mono n d hd (lo + w) e (by omega) hc'
        rw [this] at hge'
        cases hge')
      exact this

theorem binExp_spec (n d : Nat) (hd : 0 < d) :
    -1075 ≤ binExp n d ∧ binExp n d ≤ 3020 ∧
      (binExp n d = -1075 ∨ (2 : ℚ) ^ (binExp n d) ≤ (n : ℚ) / d) ∧
      (binExp n d < 3020 → (n : ℚ) / d < (2 : ℚ) ^ (binExp n d + 1)) := by
  have h := searchExp_spec n d hd 3020 [2048, 1024, 512, 256, 128, 64, 32, 16, 8, 4, 2, 1]
    (-1075) (by simp [BinaryWeights]) (by norm_num) (fun e h1 h2 => by
      simp only [List.sum_cons, List.sum_nil] at h1
      norm_num at h1
      omega)
  obtain ⟨h1, h2, h3, h4⟩ := h
  refine ⟨h1, h2, ?_, ?_⟩
  · rcases h3 with h3 | h3
    · exact Or.inl h3
    · exact Or.inr ((geTwoPow_iff n d hd _).1 h3)
  · intro hlt
    have := h4 (binExp n d + 1) (by unfold binExp; omega) (by unfold binExp at hlt ⊢; omega)
    by_contra hc
    have hc' : (2 : ℚ) ^ (binExp n d + 1) ≤ (n : ℚ) / d := not_lt.mp hc
    rw [(geTwoPow_iff n d hd _).2 hc'] at this
    cases this

theorem roundHalfEven_abs (N D : Nat) (hD : 0 < D) :
    |((roundHalfEven N D : Nat) : ℚ) - (N : ℚ) / D| ≤ 1 / 2 := by
  have hD' : (0 : ℚ) < D := by exact_mod_cast hD
  have hN : (N : ℚ) = (D : ℚ) * ((N / D : Nat) : ℚ) + ((N % D : Nat) : ℚ) := by
    exact_mod_cast (Nat.div_add_mod N D).symm
  have hr : ((N % D : Nat) : ℚ) < D := by exact_mod_cast Nat.mod_lt N hD
  have hr0 : (0 : ℚ) ≤ ((N % D : Nat) : ℚ) := by positivity
  have key : (N : ℚ) / D = ((N / D : Nat) : ℚ) + ((N % D : Nat) : ℚ) / D := by
    rw [hN]
    field_simp
    ring
  rw [abs_le]
  unfold roundHalfEven
  simp only []
  by_cases h1 : 2 * (N % D) < D
  · have h1' : 2 * ((N % D : Nat) : ℚ) < D := by exact_mod_cast h1
    simp only [h1, if_true]
    rw [key]
    have : ((N % D : Nat) : ℚ) / D ≤ 1 / 2 := by
      rw [div_le_iff₀ hD']; linarith
    have : 0 ≤ ((N % D : Nat) : ℚ) / D := by positivity
    constructor <;> linarith
  · simp only [h1, if_false]
    have h1' : (D : ℚ) ≤ 2 * ((N % D : Nat) : ℚ) := by exact_mod_cast not_lt.mp h1
    have hlo : 1 / 2 ≤ ((N % D : Nat) : ℚ) / D := by
      rw [le_div_iff₀ hD']; linarith
    have hhi : ((N % D : Nat) : ℚ) / D < 1 := by
      rw [div_lt_iff₀ hD']; linarith
    by_cases h2 : D < 2 * (N % D)
    · simp only [h2, if_true]
      rw [key]
      push_cast
      constructor <;> linarith
    · simp only [h2, if_false]
      have h2' : 2 * ((N % D : Nat) : ℚ) ≤ D := by exact_mod_cast not_lt.mp h2
      have heq : ((N % D : Nat) : ℚ) / D = 1 / 2 := by
        rw [div_eq_iff (ne_of_gt hD')]; linarith
      split
      · rw [key, heq]
        constructor <;> linarith
      · rw [key, heq]
        push_cast
        constructor <;> linarith

theorem roundScale_ge (n d : Nat) : -1074 ≤ roundScale n d := by
  unfold roundScale
  exact le_max_right _ _

theorem roundSig_abs (n d : Nat) (hd : 0 < d) :
    |((roundSig n d : Nat) : ℚ) - (n : ℚ) / d / (2 : ℚ) ^ (roundScale n d)| ≤ 1 / 2 := by
  have hd' : (0 : ℚ) < d := by exact_mod_cast hd
  unfold roundSig
  by_cases hs : 0 ≤ roundScale n d
  · obtain ⟨k, hk⟩ := Int.eq_ofNat_of_zero_le hs
    simp only [hs, if_true, hk, Int.toNat_ofNat, zpow_natCast]
    have := roundHalfEven_abs n (d * 2 ^ k) (by positivity)
    push_cast at this
    rw [div_div]
    exact this
  · have hneg : roundScale n d < 0 := not_le.mp hs
    obtain ⟨k, hk⟩ := Int.eq_ofNat_of_zero_le (show 0 ≤ -roundScale n d by omega)
    have hs2 : roundScale n d = -(k : Int) := by omega
    simp only [hs, if_false, hk, Int.toNat_ofNat]
    rw [hs2, zpow_neg, zpow_natCast]
    have := roundHalfEven_abs (n * 2 ^ k) d hd
    push_cast at this
    have e : (n : ℚ) / d / ((2 : ℚ) ^ k)⁻¹ = (n : ℚ) * 2 ^ k / d := by
      field_simp
    rw [e]
    exact this

/-- The value of the rounded magnitude: significand times `2 ^ scale`. -/
theorem roundValue_eq (n d : Nat) :
    ((roundSig n d * 2 ^ (roundScale n d + 1074).toNat : Nat) : ℚ) / 2 ^ 1074
      = (roundSig n d : ℚ) * (2 : ℚ) ^ (roundScale n d) := by
  have h := roundScale_ge n d
  obtain ⟨k, hk⟩ := Int.eq_ofNat_of_zero_le (show 0 ≤ roundScale n d + 1074 by omega)
  have hs : roundScale n d = (k : Int) - 1074 := by omega
  rw [hk, hs, Int.toNat_ofNat]
  push_cast
  rw [zpow_sub₀ (by norm_num), zpow_natCast]
  norm_num
  ring

theorem roundScale_spec (n d : Nat) (hd : 0 < d) :
    (roundScale n d = -1074 ∨ (2 : ℚ) ^ (roundScale n d + 52) ≤ (n : ℚ) / d) ∧
      (roundScale n d < 2968 → (n : ℚ) / d < (2 : ℚ) ^ (roundScale n d + 53)) := by
  obtain ⟨h1, h2, h3, h4⟩ := binExp_spec n d hd
  unfold roundScale
  constructor
  · by_cases hc : binExp n d - 52 ≤ -1074
    · left
      exact max_eq_right hc
    · right
      rw [max_eq_left (by omega)]
      rcases h3 with h3 | h3
      · omega
      · simpa using h3
  · intro hlt
    have hE : binExp n d < 3020 := by
      have := le_max_left (binExp n d - 52) (-1074)
      omega
    refine lt_of_lt_of_le (h4 hE) (zpow_le_zpow_right₀ (by norm_num) ?_)
    have := le_max_left (binExp n d - 52) (-1074)
    omega

theorem roundValue_abs (n d : Nat) (hd : 0 < d) :
    |(roundSig n d : ℚ) * (2 : ℚ) ^ (roundScale n d) - (n : ℚ) / d|
      ≤ (2 : ℚ) ^ (roundScale n d) / 2 := by
  have h := roundSig_abs n d hd
  have hp : (0 : ℚ) < (2 : ℚ) ^ (roundScale n d) := by positivity
  have e : (roundSig n d : ℚ) * (2 : ℚ) ^ (roundScale n d) - (n : ℚ) / d
      = ((roundSig n d : ℚ) - (n : ℚ) / d / (2 : ℚ) ^ (roundScale n d))
        * (2 : ℚ) ^ (roundScale n d) := by
    field_simp
    ring
  rw [e, abs_mul, abs_of_pos hp]
  calc |(roundSig n d : ℚ) - (n : ℚ) / d / (2 : ℚ) ^ (roundScale n d)|
        * (2 : ℚ) ^ (roundScale n d)
      ≤ 1 / 2 * (2 : ℚ) ^ (roundScale n d) := mul_le_mul_of_nonneg_right h hp.le
    _ = (2 : ℚ) ^ (roundScale n d) / 2 := by ring

theorem roundMag_some_of_lt (n d : Nat)
    (h : (roundSig n d : ℚ) * (2 : ℚ) ^ (roundScale n d) < 2 ^ 1024) :
    roundMag n d = some (roundSig n d * 2 ^ (roundScale n d + 1074).toNat) := by
  unfold roundMag
  simp only []
  rw [if_pos]
  rw [← roundValue_eq] at h
  have h2 : ((roundSig n d * 2 ^ (roundScale n d + 1074).toNat : Nat) : ℚ)
      < 2 ^ 1024 * 2 ^ 1074 := by
    rwa [div_lt_iff₀ (by positivity)] at h
  rw [← pow_add] at h2
  exact_mod_cast h2

/-- Rounding a ratio in the range of the normal float64 numbers changes it
by at most the fraction `2 ^ (-53)` of itself. -/
theorem roundMag_rel (n d : Nat) (hd : 0 < d)
    (hlo : (2 : ℚ) ^ (-1022 : Int) ≤ (n : ℚ) / d) (hhi : (n : ℚ) / d < 2 ^ 1023) :
    ∃ z : Nat, roundMag n d = some z ∧
      |(z : ℚ) / 2 ^ 1074 - (n : ℚ) / d| ≤ (n : ℚ) / d / 2 ^ 53 := by
  have habs := roundValue_abs n d hd
  obtain ⟨h1, _⟩ := roundScale_spec n d hd
  have hq : (2 : ℚ) ^ (roundScale n d + 52) ≤ (n : ℚ) / d := by
    rcases h1 with h1 | h1
    · rw [h1]
      norm_num at hlo ⊢
      exact hlo
    · exact h1
  have hb : (2 : ℚ) ^ (roundScale n d) / 2 ≤ (n : ℚ) / d / 2 ^ 53 := by
    rw [zpow_add₀ (by norm_num)] at hq
    have h52 : ((2 : ℚ) ^ (52 : Int)) = 2 ^ 53 / 2 := by norm_num
    rw [h52] at hq
    rw [le_div_iff₀ (by positivity)]
    linarith
  have hle := le_trans habs hb
  have hv : (roundSig n d : ℚ) * (2 : ℚ) ^ (roundScale n d) < 2 ^ 1024 := by
    have := (abs_le.1 hle).2
    have h53 : (n : ℚ) / d / 2 ^ 53 ≤ (n : ℚ) / d := by
      apply div_le_self
      · exact le_trans (by positivity) hlo
      · norm_num
    have e : (2 : ℚ) ^ 1024 = 2 ^ 1023 + 2 ^ 1023 := by norm_num
    rw [e]
    linarith
  refine ⟨_, roundMag_some_of_lt n d hv, ?_⟩
  rw [roundValue_eq]
  exact hle

/-- Rounding never more than doubles a ratio and adds one. -/
theorem roundMag_le (n d : Nat) (hd : 0 < d) (hhi : (n : ℚ) / d < 2 ^ 1022) :
    ∃ z : Nat, roundMag n d = some z ∧ (z : ℚ) / 2 ^ 1074 ≤ 2 * ((n : ℚ) / d) + 1 := by
  have habs := roundValue_abs n d hd
  obtain ⟨h1, _⟩ := roundScale_spec n d hd
  have hq0 : (0 : ℚ) ≤ (n : ℚ) / d := div_nonneg (Nat.cast_nonneg _) (Nat.cast_nonneg _)
  have hb : (2 : ℚ) ^ (roundScale n d) / 2 ≤ (n : ℚ) / d + 1 := by
    rcases h1 with h1 | h1
    · rw [h1]
      have : (2 : ℚ) ^ (-1074 : Int) ≤ 1 := by
        rw [zpow_neg]
        apply inv_le_one_of_one_le₀
        exact one_le_zpow₀ (by norm_num) (by norm_num)
      linarith
    · rw [zpow_add₀ (by norm_num)] at h1
      have hp : (0 : ℚ) < (2 : ℚ) ^ (roundScale n d) := by positivity
      have h52 : (1 : ℚ) ≤ (2 : ℚ) ^ (52 : Int) := by norm_num
      nlinarith
  have hle := (abs_le.1 (le_trans habs hb)).2
  have hv : (roundSig n d : ℚ) * (2 : ℚ) ^ (roundScale n d) < 2 ^ 1024 := by
    have e : (2 : ℚ) ^ 1024 = 2 ^ 1022 + 2 ^ 1022 + 2 ^ 1023 := by norm_num
    have : (1 : ℚ) ≤ 2 ^ 1023 := one_le_pow₀ (by norm_num)
    rw [e]
    linarith
  refine ⟨_, roundMag_some_of_lt n d hv, ?_⟩
  rw [roundValue_eq]
  linarith

theorem nat_eq_of_abs_sub_lt_one (m A : Nat) (h1 : (m : ℚ) < A + 1) (h2 : (A : ℚ) < m + 1) :
    m = A := by
  have h1' : m < A + 1 := by exact_mod_cast h1
  have h2' : A < m + 1 := by exact_mod_cast h2
  omega

/-- A ratio that is a float64 (`a * 2 ^ t` with `a < 2 ^ 53`, `t ≥ -1074`) is
rounded to itself. -/
theorem roundMag_exact (n d : Nat) (hd : 0 < d) (a : Nat) (t : Int)
    (hq : (n : ℚ) / d = (a : ℚ) * (2 : ℚ) ^ t) (ha : a < 2 ^ 53) (ht : -1074 ≤ t)
    (hlt : (a : ℚ) * (2 : ℚ) ^ t < 2 ^ 1024) :
    roundMag n d = some (a * 2 ^ (t + 1074).toNat) := by
  obtain ⟨h1, _⟩ := roundScale_spec n d hd
  have hsge := roundScale_ge n d
  have hst : roundScale n d ≤ t := by
    rcases h1 with h1 | h1
    · omega
    · rw [hq] at h1
      have ha' : (a : ℚ) < 2 ^ 53 := by exact_mod_cast ha
      have hpt : (0 : ℚ) < (2 : ℚ) ^ t := by positivity
      have h3 : (a : ℚ) * (2 : ℚ) ^ t < (2 : ℚ) ^ (53 + t) := by
        rw [zpow_add₀ (by norm_num)]
        have : ((2 : ℚ) ^ (53 : Int)) = 2 ^ 53 := by norm_num
        rw [this]
        exact mul_lt_mul_of_pos_right ha' hpt
      have h4 := lt_of_le_of_lt h1 h3
      have := (zpow_lt_zpow_iff_right₀ (show (1 : ℚ) < 2 by norm_num)).1 h4
      omega
  obtain ⟨k, hk⟩ := Int.eq_ofNat_of_zero_le (show 0 ≤ t - roundScale n d by omega)
  have hts : t = roundScale n d + k := by omega
  have hps : (0 : ℚ) < (2 : ℚ) ^ (roundScale n d) := by positivity
  have hA : (n : ℚ) / d / (2 : ℚ) ^ (roundScale n d) = ((a * 2 ^ k : Nat) : ℚ) := by
    rw [hq, hts, zpow_add₀ (by norm_num), zpow_natCast]
    push_cast
    field_simp
    ring
  have hm := roundSig_abs n d hd
  rw [hA, abs_le] at hm
  have hmA : roundSig n d = a * 2 ^ k :=
    nat_eq_of_abs_sub_lt_one _ _ (by linarith [hm.2]) (by linarith [hm.1])
  have hv : (roundSig n d : ℚ) * (2 : ℚ) ^ (roundScale n d) < 2 ^ 1024 := by
    rw [hmA]
    have : ((a * 2 ^ k : Nat) : ℚ) * (2 : ℚ) ^ (roundScale n d) = (a : ℚ) * (2 : ℚ) ^ t := by
      rw [hts, zpow_add₀ (by norm_num), zpow_natCast]
      push_cast
      ring
    rw [this]
    exact hlt
  rw [roundMag_some_of_lt n d hv, hmA]
  congr 1
  have e : (t + 1074).toNat = k + (roundScale n d + 1074).toNat := by omega
  rw [e, pow_add]
  ring

theorem roundMag_zero (d : Nat) (hd : 0 < d) : roundMag 0 d = some 0 := by
  have := roundMag_exact 0 d hd 0 0 (by simp) (by norm_num) (by norm_num) (by norm_num)
  simpa using this

/-- A natural number `a < 2 ^ 53` times `1 + 2 ^ (-54)` is rounded to `a`. -/
theorem roundMag_perturbed (n d : Nat) (hd : 0 < d) (a : Nat)
    (hq : (n : ℚ) / d = (a : ℚ) * (1 + 1 / 2 ^ 54)) (ha0 : 0 < a) (ha : a < 2 ^ 53) :
    roundMag n d = some (a * 2 ^ 1074) := by
  obtain ⟨h1, h2⟩ := roundScale_spec n d hd
  have hsge := roundScale_ge n d
  have ha' : (a : ℚ) + 1 ≤ 2 ^ 53 := by exact_mod_cast ha
  have ha0' : (1 : ℚ) ≤ a := by exact_mod_cast ha0
  have hqa : (a : ℚ) < (n : ℚ) / d := by
    rw [hq]
    have : (0 : ℚ) < a * (1 / 2 ^ 54) := by positivity
    linarith
  have hq53 : (n : ℚ) / d < (2 : ℚ) ^ (53 : Int) := by
    rw [hq]
    have : (a : ℚ) * (1 / 2 ^ 54) < 1 := by
      rw [mul_one_div, div_lt_one (by positivity)]
      have : (2 : ℚ) ^ 53 ≤ 2 ^ 54 := by norm_num
      linarith
    norm_num at this ⊢
    linarith
  have hs0 : roundScale n d ≤ 0 := by
    rcases h1 with h1 | h1
    · omega
    · have h4 := lt_of_le_of_lt h1 hq53
      have := (zpow_lt_zpow_iff_right₀ (show (1 : ℚ) < 2 by norm_num)).1 h4
      omega
  have hup := h2 (by omega)
  obtain ⟨k, hk⟩ := Int.eq_ofNat_of_zero_le (show 0 ≤ -roundScale n d by omega)
  have hs : roundScale n d = -(k : Int) := by omega
  have hpk : (0 : ℚ) < (2 : ℚ) ^ k := by positivity
  have hak : (a : ℚ) * 2 ^ k < 2 ^ 53 := by
    have h5 := lt_trans hqa hup
    rw [hs, show (-(k : Int) + 53) = (53 : Int) - k by ring, zpow_sub₀ (by norm_num),
      zpow_natCast] at h5
    rw [lt_div_iff₀ hpk] at h5
    norm_num at h5 ⊢
    exact h5
  have hA : (n : ℚ) / d / (2 : ℚ) ^ (roundScale n d)
      = ((a * 2 ^ k : Nat) : ℚ) + (a : ℚ) * 2 ^ k / 2 ^ 54 := by
    rw [hq, hs, zpow_neg, zpow_natCast]
    push_cast
    field_simp
    ring
  have hδ0 : (0 : ℚ) < (a : ℚ) * 2 ^ k / 2 ^ 54 := by positivity
  have hδ : (a : ℚ) * 2 ^ k / 2 ^ 54 < 1 / 2 := by
    rw [div_lt_iff₀ (by positivity)]
    norm_num at hak ⊢
    linarith
  have hm := roundSig_abs n d hd
  rw [hA, abs_le] at hm
  have hmA : roundSig n d = a * 2 ^ k :=
    nat_eq_of_abs_sub_lt_one _ _ (by linarith [hm.2]) (by linarith [hm.1])
  have hval : (roundSig n d : ℚ) * (2 : ℚ) ^ (roundScale n d) = a := by
    rw [hmA, hs, zpow_neg, zpow_natCast]
    push_cast
    field_simp
  have hv : (roundSig n d : ℚ) * (2 : ℚ) ^ (roundScale n d) < 2 ^ 1024 := by
    rw [hval]
    have : (2 : ℚ) ^ 53 ≤ 2 ^ 1024 := by norm_num
    linarith
  rw [roundMag_some_of_lt n d hv, hmA]
  congr 1
  have e : (1074 : Nat) = k + (roundScale n d + 1074).toNat := by omega
  rw [mul_assoc, ← pow_add, ← e]

end F64

/-! ## `ParseFloat` on plain decimal texts -/

theorem digitChar_facts : ∀ d : Fin 10,
    digitChar d ≠ '_' ∧ digitChar d ≠ '.' ∧ digitChar d ≠ '+' ∧ digitChar d ≠ '-' ∧
      strconv.isDigit (digitChar d) = true ∧ (digitChar d).toNat - 48 = d.val ∧
      (digitChar d = '0' ↔ d.val = 0) ∧ strconv.lower (digitChar d) ≠ 120 ∧
      digitChar d ≠ 'i' ∧ digitChar d ≠ 'I' ∧ digitChar d ≠ 'n' ∧ digitChar d ≠ 'N' ∧
      (digitChar d).toNat ≠ 105 ∧ ¬ (65 ≤ (digitChar d).toNat ∧ (digitChar d).toNat ≤ 90) := by
  decide

theorem scan_digit_char (d : Fin 10) (cs : List Char) (st : strconv.Scan) :
    strconv.scanMantissa false (digitChar d :: cs) st
      = strconv.scanMantissa false cs (scanDigit st d) := by
  obtain ⟨h1, h2, _, _, h5, h6, h7, _⟩ := digitChar_facts d
  unfold scanDigit
  rw [strconv.scanMantissa]
  simp only [h1, h2, h5, h6, h7, if_false, if_true]
  split <;> simp

theorem scan_digits (ds : List (Fin 10)) (rest : List Char) (st : strconv.Scan) :
    strconv.scanMantissa false (ds.map digitChar ++ rest) st
      = strconv.scanMantissa false rest (ds.foldl scanDigit st) := by
  induction ds generalizing st with
  | nil => rfl
  | cons d ds ih =>
    simp only [List.map_cons, List.cons_append, List.foldl_cons]
    rw [scan_digit_char, ih]

theorem scanDigit_facts (st : strconv.Scan) (d : Fin 10)
    (hinv : st.nd = 0 → st.mantissa = 0) :
    (scanDigit st d).mantissa = st.mantissa * 10 + d.val ∧
      (scanDigit st d).dp - ((scanDigit st d).nd : Int) = st.dp - (st.nd : Int) - 1 ∧
      (scanDigit st d).sawdot = st.sawdot ∧
      (scanDigit st d).underscores = st.underscores ∧
      (scanDigit st d).sawdigits = true ∧
      ((scanDigit st d).nd = 0 → (scanDigit st d).mantissa = 0) := by
  unfold scanDigit
  split
  · rename_i h
    simp [h.1, hinv h.2]
    ring
  · simp
    omega

theorem foldl_scanDigit (ds : List (Fin 10)) (st : strconv.Scan)
    (hinv : st.nd = 0 → st.mantissa = 0) :
    (ds.foldl scanDigit st).mantissa = digitsValue ds st.mantissa ∧
      (ds.foldl scanDigit st).dp - ((ds.foldl scanDigit st).nd : Int)
        = st.dp - (st.nd : Int) - ds.length ∧
      (ds.foldl scanDigit st).sawdot = st.sawdot ∧
      (ds.foldl scanDigit st).underscores = st.underscores ∧
      (ds.foldl scanDigit st).sawdigits = (st.sawdigits || !ds.isEmpty) ∧
      ((ds.foldl scanDigit st).nd = 0 → (ds.foldl scanDigit st).mantissa = 0) := by
  induction ds generalizing st with
  | nil => simpa [digitsValue] using hinv
  | cons d ds ih =>
    obtain ⟨g1, g2, g3, g4, g5, g6⟩ := scanDigit_facts st d hinv
    obtain ⟨h1, h2, h3, h4, h5, h6⟩ := ih (scanDigit st d) g6
    simp only [List.foldl_cons, digitsValue] at h1 h2 h3 h4 h5 h6 ⊢
    refine ⟨?_, ?_, ?_, ?_, ?_, h6⟩
    · rw [h1, g1]
    · rw [h2, g2]
      simp only [List.length_cons]
      push_cast
      ring
    · rw [h3, g3]
    · rw [h4, g4]
    · rw [h5, g5]
      simp

theorem scan_nil (st : strconv.Scan) : strconv.scanMantissa false [] st = (st, []) := by
  rw [strconv.scanMantissa]

theorem scan_digits_nil (ds : List (Fin 10)) (st : strconv.Scan) :
    strconv.scanMantissa false (ds.map digitChar) st = (ds.foldl scanDigit st, []) := by
  have h := scan_digits ds [] st
  rw [List.append_nil, scan_nil] at h
  exact h

theorem scan_dot (cs : List Char) (st : strconv.Scan) (h : st.sawdot = false) :
    strconv.scanMantissa false ('.' :: cs) st
      = strconv.scanMantissa false cs { st with sawdot := true, dp := st.nd } := by
  rw [strconv.scanMantissa]
  simp [h]

theorem scan_unsigned (ip fp : List (Fin 10)) (hip : ip ≠ []) :
    ∃ st : strconv.Scan,
      strconv.scanMantissa false (unsignedChars ip fp) ⟨0, 0, 0, false, false, false⟩ = (st, []) ∧
      st.mantissa = digitsValue (ip ++ fp) 0 ∧ st.sawdigits = true ∧ st.underscores = false ∧
      (if st.sawdot then st.dp else (st.nd : Int)) - (st.nd : Int) = -(fp.length : Int) := by
  obtain ⟨h1, h2, h3, h4, h5, h6⟩ :=
    foldl_scanDigit ip ⟨0, 0, 0, false, false, false⟩ (fun _ => rfl)
  have hne : ip.isEmpty = false := by
    cases ip with
    | nil => exact absurd rfl hip
    | cons _ _ => rfl
  unfold unsignedChars
  rw [scan_digits]
  cases fp with
  | nil =>
    refine ⟨_, scan_nil _, ?_, ?_, h4, ?_⟩
    · simpa using h1
    · simpa [hne] using h5
    · simp only [h3]
      simp
  | cons d fp1 =>
    simp only [List.isEmpty_cons, Bool.false_eq_true, if_false]
    rw [scan_dot _ _ h3, scan_digits_nil]
    obtain ⟨k1, k2, k3, k4, k5, k6⟩ := foldl_scanDigit (d :: fp1)
      { List.foldl scanDigit ⟨0, 0, 0, false, false, false⟩ ip with
        sawdot := true,
        dp := ((List.foldl scanDigit ⟨0, 0, 0, false, false, false⟩ ip).nd : Int) } h6
    refine ⟨_, rfl, ?_, ?_, ?_, ?_⟩
    · rw [k1]
      simp only [h1, digitsValue, List.foldl_append]
    · rw [k5]
      simp
    · rw [k4]
      exact h4
    · rw [k3]
      simp only [if_true]
      rw [k2]
      simp

theorem hexPrefix_unsigned (ip fp : List (Fin 10)) (hip : ip ≠ []) :
    strconv.hexPrefix (unsignedChars ip fp) = false := by
  unfold unsignedChars
  cases ip with
  | nil => exact absurd rfl hip
  | cons d0 ip1 =>
    cases ip1 with
    | nil =>
      cases fp with
      | nil => rfl
      | cons e fp1 =>
        simp only [List.map_cons, List.map_nil, List.isEmpty_cons, Bool.false_eq_true,
          if_false, List.cons_append, List.nil_append, strconv.hexPrefix]
        have : strconv.lower '.' ≠ 120 := by decide
        simp [this]
    | cons d1 ip2 =>
      have hl := (digitChar_facts d1).2.2.2.2.2.2.2.1
      cases ip2 with
      | nil =>
        cases fp with
        | nil => rfl
        | cons e fp1 =>
          simp only [List.map_cons, List.map_nil, List.isEmpty_cons, Bool.false_eq_true,
            if_false, List.cons_append, List.nil_append, strconv.hexPrefix]
          simp [hl]
      | cons d2 ip3 =>
        simp only [List.map_cons, List.cons_append, strconv.hexPrefix]
        simp [hl]

theorem readFloat_of_scan (c0 : Char) (rest0 body : List Char) (neg : Bool) (st : strconv.Scan)
    (hneg : decide (c0 = '-') = neg)
    (hs1 : (if c0 = '+' ∨ c0 = '-' then (c0 :: rest0).drop 1 else c0 :: rest0) = body)
    (hhex : strconv.hexPrefix body = false)
    (hscan : strconv.scanMantissa false body ⟨0, 0, 0, false, false, false⟩ = (st, []))
    (hsd : st.sawdigits = true) (hus : st.underscores = false) :
    strconv.readFloat (c0 :: rest0) =
      some (⟨neg, false, st.mantissa,
        if st.mantissa ≠ 0 then (if st.sawdot then st.dp else (st.nd : Int)) - (st.nd : Int)
        else 0⟩, []) := by
  unfold strconv.readFloat
  simp only [hneg, hs1, hhex, Bool.false_eq_true, if_false, hscan, hsd, not_true_eq_false,
    strconv.readExponent, strconv.finishFloat, hus, false_and]

theorem readFloat_decimal (t : DecimalText) (hip : t.intDigits ≠ []) :
    strconv.readFloat t.chars =
      some (⟨t.neg, false, t.digits,
        if t.digits ≠ 0 then -(t.fracDigits.length : Int) else 0⟩, []) := by
  obtain ⟨st, hscan, hm, hsd, hus, hdp⟩ := scan_unsigned t.intDigits t.fracDigits hip
  have hhex := hexPrefix_unsigned t.intDigits t.fracDigits hip
  have hbody : ∃ d0 tl, unsignedChars t.intDigits t.fracDigits = digitChar d0 :: tl := by
    unfold unsignedChars
    cases h : t.intDigits with
    | nil => exact absurd h hip
    | cons d0 ip1 => exact ⟨d0, _, rfl⟩
  obtain ⟨d0, tl, hb⟩ := hbody
  obtain ⟨_, _, f3, f4, _⟩ := digitChar_facts d0
  unfold DecimalText.chars DecimalText.digits
  cases hn : t.neg with
  | true =>
    simp only [if_true, List.singleton_append]
    rw [readFloat_of_scan '-' _ _ true st (by decide) (by simp) hhex hscan hsd hus, hm, hdp]
  | false =>
    simp only [Bool.false_eq_true, if_false, List.nil_append]
    rw [hb] at hscan hhex ⊢
    rw [readFloat_of_scan (digitChar d0) tl _ false st (by simp [f4]) (by simp [f3, f4]) hhex
      hscan hsd hus, hm, hdp]

theorem specialInf_digit (d : Fin 10) (tl : List Char) :
    strconv.specialInf (digitChar d :: tl) = none := by
  obtain ⟨_, _, _, _, _, _, _, _, _, _, _, _, g1, g2⟩ := digitChar_facts d
  unfold strconv.specialInf
  have : strconv.commonPrefixLenIgnoreCase (digitChar d :: tl) "infinity".data = 0 := by
    show strconv.commonPrefixLenIgnoreCase (digitChar d :: tl) ('i' :: "nfinity".data) = 0
    rw [strconv.commonPrefixLenIgnoreCase]
    simp only [g2, if_false]
    simp [g1]
  simp [this]

theorem special_decimal (t : DecimalText) (hip : t.intDigits ≠ []) :
    strconv.special t.chars = none := by
  have hbody : ∃ d0 tl, unsignedChars t.intDigits t.fracDigits = digitChar d0 :: tl := by
    unfold unsignedChars
    cases h : t.intDigits with
    | nil => exact absurd h hip
    | cons d0 ip1 => exact ⟨d0, _, rfl⟩
  obtain ⟨d0, tl, hb⟩ := hbody
  obtain ⟨_, _, f3, f4, _, _, _, _, f9, f10, f11, f12, _⟩ := digitChar_facts d0
  unfold DecimalText.chars
  rw [hb]
  cases t.neg with
  | true =>
    simp only [if_true, List.singleton_append, strconv.special]
    simp [specialInf_digit]
  | false =>
    simp only [Bool.false_eq_true, if_false, List.nil_append, strconv.special]
    simp [f3, f4, f9, f10, f11, f12]

/-- Go `ParseFloat` on a plain decimal text yields the float64 nearest to the
exact decimal value: the digits over the power of ten of the fraction. -/
theorem ParseFloat_decimal (t : DecimalText) (hip : t.intDigits ≠ []) :
    (strconv.ParseFloat t.text).1 = F64.ofRatio t.neg t.digits (10 ^ t.fracDigits.length) := by
  unfold strconv.ParseFloat
  have hd : t.text.data = t.chars := rfl
  rw [hd, special_decimal t hip, readFloat_decimal t hip]
  simp only [ne_eq, not_true_eq_false, if_false]
  have hval : strconv.Parsed.toF64 ⟨t.neg, false, t.digits,
      if t.digits ≠ 0 then -(t.fracDigits.length : Int) else 0⟩
      = F64.ofRatio t.neg t.digits (10 ^ t.fracDigits.length) := by
    unfold strconv.Parsed.toF64
    by_cases h0 : t.digits = 0
    · simp only [h0, ne_eq, not_true_eq_false, if_false, le_refl, if_true, Int.toNat_zero,
        pow_zero, mul_one, Bool.false_eq_true]
      unfold F64.ofRatio
      rw [F64.roundMag_zero 1 (by norm_num), F64.roundMag_zero _ (by positivity)]
    · by_cases hf : t.fracDigits.length = 0
      · simp [h0, hf]
      · have hneg : ¬ (0 : Int) ≤ -(t.fracDigits.length : Int) := by omega
        simp only [h0, ne_eq, not_false_eq_true, if_true, hneg, if_false, neg_neg,
          Int.toNat_ofNat, Bool.false_eq_true]
  rw [hval]
  split <;> rfl

/-! ## Rules 2 and 3 on short decimal totals -/

theorem digitsValue_acc (ds : List (Fin 10)) (acc : Nat) :
    digitsValue ds acc = acc * 10 ^ ds.length + digitsValue ds 0 := by
  induction ds generalizing acc with
  | nil => simp [digitsValue]
  | cons d ds ih =>
    have h1 := ih (acc * 10 + d.val)
    have h2 := ih (0 * 10 + d.val)
    simp only [digitsValue, List.foldl_cons, List.length_cons] at h1 h2 ⊢
    rw [h1, h2]
    ring

theorem digitsValue_lt (ds : List (Fin 10)) : digitsValue ds 0 < 10 ^ ds.length := by
  induction ds with
  | nil => simp [digitsValue]
  | cons d ds ih =>
    have h := digitsValue_acc ds (0 * 10 + d.val)
    simp only [digitsValue, List.foldl_cons, List.length_cons] at h ih ⊢
    rw [h]
    have hd : d.val ≤ 9 := by omega
    have : (0 * 10 + d.val) * 10 ^ ds.length ≤ 9 * 10 ^ ds.length :=
      Nat.mul_le_mul_right _ (by omega)
    rw [pow_succ]
    omega

theorem DecimalText.digits_lt (t : DecimalText)
    (hlen : t.intDigits.length + t.fracDigits.length ≤ 15) : t.digits < 10 ^ 15 := by
  have h := digitsValue_lt (t.intDigits ++ t.fracDigits)
  rw [List.length_append] at h
  exact lt_of_lt_of_le h (Nat.pow_le_pow_right (by norm_num) hlen)

/-- The float64 nearest to a decimal of at most 15 digits, with its distance
from the decimal. -/
theorem ofRatio_short (neg : Bool) (K f : Nat) (hK : K < 10 ^ 15) (hf : f ≤ 15) :
    ∃ z : Nat, F64.ofRatio neg K (10 ^ f) = F64.fin (if neg then -(z : Int) else (z : Int)) ∧
      |(z : ℚ) / 2 ^ 1074 - (K : ℚ) / 10 ^ f| ≤ (K : ℚ) / 10 ^ f / 2 ^ 53 ∧
      (0 < K → 0 < z) := by
  have hpos : 0 < 10 ^ f := by positivity
  by_cases h0 : K = 0
  · subst h0
    refine ⟨0, ?_, by simp, by simp⟩
    unfold F64.ofRatio
    rw [F64.roundMag_zero _ hpos]
  · have hK1 : (1 : ℚ) ≤ K := by exact_mod_cast Nat.one_le_iff_ne_zero.2 h0
    have hKq : (K : ℚ) < 10 ^ 15 := by exact_mod_cast hK
    have hfq : (10 : ℚ) ^ f ≤ 10 ^ 15 := pow_le_pow_right₀ (by norm_num) hf
    have hpq : (0 : ℚ) < 10 ^ f := by positivity
    have hlo : (2 : ℚ) ^ (-1022 : Int) ≤ ((K : Nat) : ℚ) / ((10 ^ f : Nat) : ℚ) := by
      push_cast
      rw [le_div_iff₀ hpq]
      have h1 : (2 : ℚ) ^ (-1022 : Int) * 10 ^ f ≤ (2 : ℚ) ^ (-1022 : Int) * 10 ^ 15 :=
        mul_le_mul_of_nonneg_left hfq (by positivity)
      have h2 : (2 : ℚ) ^ (-1022 : Int) * 10 ^ 15 ≤ 1 := by
        rw [zpow_neg, inv_mul_le_iff₀ (by positivity)]
        norm_num
      linarith
    have hhi : ((K : Nat) : ℚ) / ((10 ^ f : Nat) : ℚ) < 2 ^ 1023 := by
      push_cast
      rw [div_lt_iff₀ hpq]
      have h1 : (1 : ℚ) ≤ 10 ^ f := one_le_pow₀ (by norm_num)
      have h2 : (10 : ℚ) ^ 15 ≤ 2 ^ 1023 := by norm_num
      nlinarith
    obtain ⟨z, hz, hb⟩ := F64.roundMag_rel K (10 ^ f) hpos hlo hhi
    push_cast at hb
    refine ⟨z, ?_, hb, fun _ => ?_⟩
    · unfold F64.ofRatio
      rw [hz]
    · by_contra hz0
      have hz0' : z = 0 := by omega
      subst hz0'
      have hq : (0 : ℚ) < (K : ℚ) / 10 ^ f := by positivity
      have h53 : (K : ℚ) / 10 ^ f / 2 ^ 53 < (K : ℚ) / 10 ^ f := by
        apply div_lt_self hq
        norm_num
      rw [abs_le] at hb
      simp only [Nat.cast_zero, zero_div, zero_sub] at hb
      linarith [hb.1]

/-- Rounding a decimal `K / 10 ^ f` of at most 15 digits: the result is a
multiple of `2 ^ (-j)` (`j ≤ 2`) exactly when the decimal is. -/
theorem roundMag_short_dvd (K f j : Nat) (hK : K < 10 ^ 15) (hf : f ≤ 15) (hj : j ≤ 2) :
    ∃ z : Nat, F64.roundMag K (10 ^ f) = some z ∧ (0 < K → 0 < z) ∧
      (2 ^ (1074 - j) ∣ z ↔ 10 ^ f ∣ 2 ^ j * K) := by
  have hpos : 0 < 10 ^ f := by positivity
  have hpq : (0 : ℚ) < 10 ^ f := by positivity
  have hj4 : 2 ^ j ≤ 4 := by
    calc 2 ^ j ≤ 2 ^ 2 := Nat.pow_le_pow_right (by norm_num) hj
      _ = 4 := by norm_num
  have hj4q : (2 : ℚ) ^ j ≤ 4 := by exact_mod_cast hj4
  have hjpos : (0 : ℚ) < 2 ^ j := by positivity
  obtain ⟨z, hz, hb, hzpos⟩ := ofRatio_short false K f hK hf
  have hz' : F64.roundMag K (10 ^ f) = some z := by
    unfold F64.ofRatio at hz
    cases hr : F64.roundMag K (10 ^ f) with
    | none => rw [hr] at hz; cases hz
    | some w =>
      rw [hr] at hz
      simp only [Bool.false_eq_true, if_false, F64.fin.injEq, Nat.cast_inj] at hz
      rw [hz]
  refine ⟨z, hz', hzpos, ?_⟩
  have hKq : (K : ℚ) < 10 ^ 15 := by exact_mod_cast hK
  have hK0 : (0 : ℚ) ≤ K := Nat.cast_nonneg _
  constructor
  · rintro ⟨V, hV⟩
    have hsplit : (2 : ℚ) ^ 1074 = 2 ^ (1074 - j) * 2 ^ j := by
      rw [← pow_add]
      congr 1
      omega
    have hzq : (z : ℚ) / 2 ^ 1074 = (V : ℚ) / 2 ^ j := by
      rw [hV, hsplit]
      push_cast
      field_simp
      ring
    rw [hzq, abs_le] at hb
    have e1 : (V : ℚ) / 2 ^ j - (K : ℚ) / 10 ^ f
        = ((V : ℚ) * 10 ^ f - 2 ^ j * K) / (2 ^ j * 10 ^ f) := by
      field_simp
    have hden : (0 : ℚ) < 2 ^ j * 10 ^ f := by positivity
    have hsmall : (K : ℚ) / 10 ^ f / 2 ^ 53 * (2 ^ j * 10 ^ f) < 1 := by
      have e2 : (K : ℚ) / 10 ^ f / 2 ^ 53 * (2 ^ j * 10 ^ f) = 2 ^ j * K / 2 ^ 53 := by
        field_simp
        ring
      rw [e2, div_lt_one (by positivity)]
      have : (4 : ℚ) * 10 ^ 15 < 2 ^ 53 := by norm_num
      nlinarith
    rw [e1] at hb
    have hb1 := hb.1
    have hb2 := hb.2
    rw [le_div_iff₀ hden] at hb1
    rw [div_le_iff₀ hden] at hb2
    have hVK : V * 10 ^ f = 2 ^ j * K := by
      apply F64.nat_eq_of_abs_sub_lt_one
      · push_cast; linarith
      · push_cast; linarith
    exact ⟨V, by rw [← hVK]; ring⟩
  · rintro ⟨Q, hQ⟩
    have hQq : (2 : ℚ) ^ j * K = 10 ^ f * Q := by exact_mod_cast hQ
    have hq : ((K : Nat) : ℚ) / ((10 ^ f : Nat) : ℚ) = (Q : ℚ) * (2 : ℚ) ^ (-(j : Int)) := by
      push_cast
      rw [zpow_neg, zpow_natCast, div_eq_iff (ne_of_gt hpq)]
      field_simp
      linarith
    have hQlt : Q < 2 ^ 53 := by
      have h1 : (Q : ℚ) ≤ 10 ^ f * Q := by
        have : (1 : ℚ) ≤ 10 ^ f := one_le_pow₀ (by norm_num)
        have hQ0 : (0 : ℚ) ≤ Q := Nat.cast_nonneg _
        nlinarith
      have h2 : (Q : ℚ) < 2 ^ 53 := by
        have : (4 : ℚ) * 10 ^ 15 < 2 ^ 53 := by norm_num
        nlinarith
      exact_mod_cast h2
    have hval : (Q : ℚ) * (2 : ℚ) ^ (-(j : Int)) < 2 ^ 1024 := by
      have h1 : (2 : ℚ) ^ (-(j : Int)) ≤ 1 := by
        rw [zpow_neg, zpow_natCast]
        exact inv_le_one_of_one_le₀ (one_le_pow₀ (by norm_num))
      have h2 : (Q : ℚ) < 2 ^ 53 := by exact_mod_cast hQlt
      have h3 : (2 : ℚ) ^ 53 ≤ 2 ^ 1024 := by norm_num
      have hQ0 : (0 : ℚ) ≤ Q := Nat.cast_nonneg _
      nlinarith
    have hex := F64.roundMag_exact K (10 ^ f) hpos Q (-(j : Int)) hq hQlt (by omega) hval
    rw [hz'] at hex
    have hzz : z = Q * 2 ^ (-(j : Int) + 1074).toNat := by
      simpa using hex
    have : (-(j : Int) + 1074).toNat = 1074 - j := by omega
    rw [hzz, this]
    exact dvd_mul_left _ _

theorem F64.one_eq : F64.one = F64.fin ((2 ^ 1074 : Nat) : Int) := by decide

theorem F64.quarter_eq : F64.quarter = F64.fin ((2 ^ 1072 : Nat) : Int) := by decide

theorem F64.mod_eq_zero (a : Int) (b : Nat) (hb : 0 < b) :
    F64.eq (F64.Mod (F64.fin a) (F64.fin (b : Int))) F64.zero = true ↔ b ∣ a.natAbs := by
  have hb' : (b : Int) ≠ 0 := by omega
  unfold F64.Mod F64.zero
  simp only [hb', if_false, Int.natAbs_ofNat]
  rw [Nat.dvd_iff_mod_eq_zero]
  simp only [F64.eq, decide_eq_true_eq]
  split <;> omega

theorem natAbs_signed (neg : Bool) (z : Nat) :
    (if neg then -(z : Int) else (z : Int)).natAbs = z := by
  cases neg <;> simp

theorem ratio_int_iff (N f : Nat) :
    (∃ m : ℤ, (N : ℚ) / 10 ^ f = m) ↔ 10 ^ f ∣ N := by
  have hpq : (10 : ℚ) ^ f ≠ 0 := by positivity
  constructor
  · rintro ⟨m, hm⟩
    rw [div_eq_iff hpq] at hm
    have hm' : (N : ℤ) = m * 10 ^ f := by exact_mod_cast hm
    have : ((10 ^ f : Nat) : ℤ) ∣ (N : ℤ) := ⟨m, by rw [hm']; push_cast; ring⟩
    exact Int.natCast_dvd_natCast.1 this
  · rintro ⟨Q, hQ⟩
    refine ⟨Q, ?_⟩
    rw [div_eq_iff hpq, hQ]
    push_cast
    ring

theorem DecimalText.fract_value (t : DecimalText) :
    Int.fract t.value = 0 ↔ 10 ^ t.fracDigits.length ∣ t.digits := by
  rw [← ratio_int_iff]
  unfold DecimalText.value
  cases t.neg with
  | false =>
    simp only [Bool.false_eq_true, if_false, one_mul]
    rw [Int.fract_eq_iff]
    simp
  | true =>
    simp only [if_true, neg_one_mul]
    rw [Int.fract_neg_eq_zero, Int.fract_eq_iff]
    simp

theorem DecimalText.quarter_value (t : DecimalText) :
    (∃ m : ℤ, t.value = (m : ℚ) * (1 / 4)) ↔ 10 ^ t.fracDigits.length ∣ 2 ^ 2 * t.digits := by
  rw [← ratio_int_iff]
  have hpq : (10 : ℚ) ^ t.fracDigits.length ≠ 0 := by positivity
  unfold DecimalText.value
  cases t.neg with
  | false =>
    simp only [Bool.false_eq_true, if_false, one_mul]
    constructor
    · rintro ⟨m, hm⟩
      refine ⟨m, ?_⟩
      push_cast
      rw [mul_div_assoc, hm]
      ring
    · rintro ⟨m, hm⟩
      refine ⟨m, ?_⟩
      push_cast at hm
      rw [← hm]
      ring
  | true =>
    simp only [if_true, neg_one_mul]
    constructor
    · rintro ⟨m, hm⟩
      refine ⟨-m, ?_⟩
      push_cast
      rw [mul_div_assoc]
      linarith
    · rintro ⟨m, hm⟩
      refine ⟨-m, ?_⟩
      push_cast at hm ⊢
      rw [mul_div_assoc] at hm
      linarith

theorem DecimalText.fract_quarter (t : DecimalText) :
    Int.fract (t.value / (1 / 4)) = 0 ↔ ∃ m : ℤ, t.value = (m : ℚ) * (1 / 4) := by
  rw [Int.fract_eq_iff]
  simp only [le_refl, zero_lt_one, sub_zero, true_and]
  constructor
  · rintro ⟨m, hm⟩
    refine ⟨m, ?_⟩
    rw [← hm]
    ring
  · rintro ⟨m, hm⟩
    refine ⟨m, ?_⟩
    rw [hm]
    ring

theorem DecimalText.value_pos (t : DecimalText) :
    0 < t.value ↔ t.neg = false ∧ 0 < t.digits := by
  have hpq : (0 : ℚ) < 10 ^ t.fracDigits.length := by positivity
  unfold DecimalText.value
  cases t.neg with
  | false =>
    simp only [Bool.false_eq_true, if_false, one_mul, true_and]
    constructor
    · intro h
      by_contra h0
      have : t.digits = 0 := by omega
      rw [this] at h
      simp at h
    · intro h
      have : (0 : ℚ) < t.digits := by exact_mod_cast h
      positivity
  | true =>
    simp only [if_true, neg_one_mul, Bool.true_eq_false, false_and, iff_false, not_lt]
    have : (0 : ℚ) ≤ (t.digits : ℚ) / 10 ^ t.fracDigits.length := by positivity
    linarith

/-- The total of a short decimal text as `rule2` and `rule3` see it. -/
theorem total_short (t : DecimalText) (hip : t.intDigits ≠ [])
    (hlen : t.intDigits.length + t.fracDigits.length ≤ 15) (j : Nat) (hj : j ≤ 2) :
    ∃ z : Nat, (strconv.ParseFloat t.text).1 = F64.fin (if t.neg then -(z : Int) else (z : Int)) ∧
      (0 < t.digits → 0 < z) ∧ (t.digits = 0 → z = 0) ∧
      (2 ^ (1074 - j) ∣ z ↔ 10 ^ t.fracDigits.length ∣ 2 ^ j * t.digits) := by
  have hK := t.digits_lt hlen
  have hf : t.fracDigits.length ≤ 15 := by omega
  obtain ⟨z, hz, hzpos, hdvd⟩ := roundMag_short_dvd t.digits t.fracDigits.length j hK hf hj
  refine ⟨z, ?_, hzpos, ?_, hdvd⟩
  · rw [ParseFloat_decimal t hip]
    unfold F64.ofRatio
    rw [hz]
  · intro h0
    rw [h0, F64.roundMag_zero _ (by positivity)] at hz
    simpa using hz.symm

theorem rule2_short (t : DecimalText) (hip : t.intDigits ≠ [])
    (hlen : t.intDigits.length + t.fracDigits.length ≤ 15) (r : Receipt) (hr : r.Total = t.text)
    (points : Int) :
    rule2 r points = if 10 ^ t.fracDigits.length ∣ t.digits then add64 points 50 else points := by
  obtain ⟨z, hz, _, _, hdvd⟩ := total_short t hip hlen 0 (by norm_num)
  unfold rule2
  simp only []
  rw [hr, hz, F64.one_eq]
  have hc := F64.mod_eq_zero (if t.neg then -(z : Int) else (z : Int)) (2 ^ 1074) (by positivity)
  rw [natAbs_signed] at hc
  simp only [Nat.sub_zero, pow_zero, one_mul] at hdvd
  by_cases hd : 10 ^ t.fracDigits.length ∣ t.digits
  · rw [if_pos hd, if_pos (hc.2 (hdvd.2 hd))]
  · rw [if_neg hd, if_neg (fun h => hd (hdvd.1 (hc.1 h)))]

theorem F64.gt_zero_signed (neg : Bool) (z : Nat) :
    F64.gt (F64.fin (if neg then -(z : Int) else (z : Int))) F64.zero = true
      ↔ neg = false ∧ 0 < z := by
  unfold F64.zero
  cases neg with
  | false => simp [F64.gt]
  | true =>
    simp only [F64.gt, if_true, decide_eq_true_eq, Bool.true_eq_false, false_and, iff_false]
    omega

theorem rule3_short (t : DecimalText) (hip : t.intDigits ≠ [])
    (hlen : t.intDigits.length + t.fracDigits.length ≤ 15) (r : Receipt) (hr : r.Total = t.text)
    (points : Int) :
    rule3 r points =
      if (t.neg = false ∧ 0 < t.digits) ∧ 10 ^ t.fracDigits.length ∣ 2 ^ 2 * t.digits then
        add64 points 25
      else points := by
  obtain ⟨z, hz, hzpos, hz0, hdvd⟩ := total_short t hip hlen 2 (by norm_num)
  unfold rule3
  simp only []
  rw [hr, hz, F64.quarter_eq]
  have hc := F64.mod_eq_zero (if t.neg then -(z : Int) else (z : Int)) (2 ^ 1072) (by positivity)
  rw [natAbs_signed] at hc
  have hg := F64.gt_zero_signed t.neg z
  have hzK : 0 < z ↔ 0 < t.digits := by
    constructor
    · intro h
      by_contra h0
      have := hz0 (by omega)
      omega
    · exact hzpos
  have e : (1074 - 2 : Nat) = 1072 := by norm_num
  rw [e] at hdvd
  by_cases hd : (t.neg = false ∧ 0 < t.digits) ∧ 10 ^ t.fracDigits.length ∣ 2 ^ 2 * t.digits
  · rw [if_pos hd, if_pos]
    exact ⟨hg.2 ⟨hd.1.1, hzK.2 hd.1.2⟩, hc.2 (hdvd.2 hd.2)⟩
  · rw [if_neg hd, if_neg]
    rintro ⟨h1, h2⟩
    have := hg.1 h1
    exact hd ⟨⟨this.1, hzK.1 this.2⟩, hdvd.1 (hc.1 h2)⟩

/-! ## Rule 5 on short decimal prices -/

theorem F64.fifth_eq : F64.fifth = F64.fin ((7205759403792794 * 2 ^ 1019 : Nat) : Int) := by
  decide

theorem F64.unit_pos : 0 < F64.unit := by
  unfold F64.unit
  positivity

theorem F64.unit_cast : ((F64.unit : Nat) : ℚ) = 2 ^ 1074 := by
  unfold F64.unit
  exact Nat.cast_pow 2 1074

theorem Ceil_fin (z : Int) :
    F64.Ceil (F64.fin z) = F64.fin (⌈(z : ℚ) / 2 ^ 1074⌉ * (F64.unit : Int)) := by
  have h : ⌈(z : ℚ) / 2 ^ 1074⌉ = -((-z) / (F64.unit : Int)) := by
    have h1 := Rat.floor_intCast_div_natCast (-z) F64.unit
    rw [F64.unit_cast] at h1
    have h2 : ((z : ℚ) / 2 ^ 1074) = -(((-z : Int) : ℚ) / 2 ^ 1074) := by
      push_cast
      ring
    rw [h2, Int.ceil_neg, h1]
  rw [h]
  rfl

theorem toInt_multiple (arch : Arch) (c : Int) (hc : InRange c) :
    toInt arch (F64.fin (c * (F64.unit : Int))) = c := by
  have hu := F64.unit_pos
  have hn : (c * (F64.unit : Int)).natAbs / F64.unit = c.natAbs := by
    rw [Int.natAbs_mul, Int.natAbs_ofNat]
    exact Nat.mul_div_cancel _ hu
  have hu' : (0 : Int) < (F64.unit : Int) := by exact_mod_cast hu
  unfold toInt
  simp only [hn]
  have hlt : c * (F64.unit : Int) < 0 ↔ c < 0 := by
    constructor
    · intro h
      by_contra hc0
      have : 0 ≤ c * (F64.unit : Int) := mul_nonneg (by omega) hu'.le
      omega
    · intro h
      exact mul_neg_of_neg_of_pos h hu'
  have ht : (if c * (F64.unit : Int) < 0 then -((c.natAbs : Nat) : Int) else ((c.natAbs : Nat) : Int))
      = c := by
    by_cases h : c < 0
    · rw [if_pos (hlt.2 h)]
      omega
    · rw [if_neg (fun h1 => h (hlt.1 h1))]
      omega
  rw [ht]
  exact if_pos hc

/-- Go `int(math.Ceil(f))` for a finite float64 whose ceiling fits an `int`. -/
theorem toInt_Ceil (arch : Arch) (z : Int) (h : InRange ⌈(z : ℚ) / 2 ^ 1074⌉) :
    toInt arch (F64.Ceil (F64.fin z)) = ⌈(z : ℚ) / 2 ^ 1074⌉ := by
  rw [Ceil_fin, toInt_multiple arch _ h]

/-- A value within `1 / D` of the fraction `N / D`, and equal to it when the
fraction is an integer, has the same ceiling. -/
theorem ceil_eq_of_near (N : Int) (D : Nat) (hD : 0 < D) (v : ℚ)
    (hnear : |v - (N : ℚ) / D| < 1 / D) (hint : (D : Int) ∣ N → v = (N : ℚ) / D) :
    ⌈v⌉ = ⌈(N : ℚ) / D⌉ := by
  have hDq : (0 : ℚ) < D := by exact_mod_cast hD
  by_cases hdvd : (D : Int) ∣ N
  · rw [hint hdvd]
  · rw [Int.ceil_eq_iff]
    have hm := Int.ceil_le.1 (le_refl ⌈(N : ℚ) / D⌉)
    have hm2 := Int.lt_ceil.1 (show ⌈(N : ℚ) / D⌉ - 1 < ⌈(N : ℚ) / D⌉ by omega)
    set m := ⌈(N : ℚ) / D⌉ with hmdef
    rw [div_le_iff₀ hDq] at hm
    rw [lt_div_iff₀ hDq] at hm2
    have hm' : N ≤ m * D := by exact_mod_cast hm
    have hm2' : (m - 1) * D < N := by exact_mod_cast hm2
    have hne : N ≠ m * D := fun h => hdvd ⟨m, by rw [h]; ring⟩
    have h1 : N + 1 ≤ m * D := by omega
    have h2 : (m - 1) * D + 1 ≤ N := by omega
    have h1q : (N : ℚ) + 1 ≤ m * D := by exact_mod_cast h1
    have h2q : ((m : ℚ) - 1) * D + 1 ≤ N := by exact_mod_cast h2
    rw [abs_lt] at hnear
    have e1 : (N : ℚ) / D + 1 / D ≤ m := by
      rw [← add_div, div_le_iff₀ hDq]
      exact h1q
    have e2 : (m : ℚ) - 1 ≤ (N : ℚ) / D - 1 / D := by
      rw [← sub_div, le_div_iff₀ hDq]
      linarith
    constructor
    · linarith [hnear.1]
    · linarith [hnear.2]

theorem fifth_ratio :
    ((7205759403792794 * 2 ^ 1019 : Nat) : ℚ) / 2 ^ 1074 = (1 + 1 / 2 ^ 54) / 5 := by
  have h : (2 : ℚ) ^ 1074 = 2 ^ 55 * 2 ^ 1019 := by rw [← pow_add]
  have hc : ((7205759403792794 * 2 ^ 1019 : Nat) : ℚ) = 7205759403792794 * 2 ^ 1019 := by
    rw [Nat.cast_mul, Nat.cast_pow]
    rfl
  rw [h, hc, mul_div_mul_right _ _ (by positivity)]
  norm_num

theorem mul_fifth_of_pos (neg : Bool) (z1 : Nat) (hz1 : 0 < z1) :
    F64.mul (F64.fin (if neg then -(z1 : Int) else (z1 : Int))) F64.fifth
      = F64.ofRatio neg (z1 * (7205759403792794 * 2 ^ 1019)) (F64.unit * F64.unit) := by
  rw [F64.fifth_eq]
  have h1 : decide ((if neg then -(z1 : Int) else (z1 : Int)) < 0) = neg := by
    cases neg with
    | false => simp
    | true => simp; omega
  have h2 : decide ((((7205759403792794 * 2 ^ 1019 : Nat) : Int)) < 0) = false := by
    simp only [decide_eq_false_iff_not, not_lt]
    exact Int.natCast_nonneg _
  simp only [F64.mul, h1, h2, natAbs_signed, Int.natAbs_ofNat]
  simp

theorem mul_fifth_zero : F64.mul (F64.fin 0) F64.fifth = F64.fin 0 := by
  rw [F64.fifth_eq]
  simp only [F64.mul, Int.natAbs_zero, zero_mul]
  unfold F64.ofRatio
  rw [F64.roundMag_zero _ (Nat.mul_pos F64.unit_pos F64.unit_pos)]
  simp

theorem product_ratio (z1 : Nat) :
    ((z1 * (7205759403792794 * 2 ^ 1019) : Nat) : ℚ) / ((F64.unit * F64.unit : Nat) : ℚ)
      = (z1 : ℚ) / 2 ^ 1074 * ((1 + 1 / 2 ^ 54) / 5) := by
  rw [← fifth_ratio, Nat.cast_mul z1, Nat.cast_mul F64.unit, F64.unit_cast]
  field_simp

theorem fin_signed_eq {n d : Nat} (neg : Bool) (w : Nat) (hr : F64.roundMag n d = some w) :
    F64.ofRatio neg n d = F64.fin (if neg then -(w : Int) else (w : Int)) := by
  unfold F64.ofRatio
  rw [hr]

/-- The float64 product of a short decimal price and the constant `0.2`: it is
within one part in `5 * 10 ^ f` of the exact fifth of the price, and equal to
it when that fifth is an integer. -/
theorem mul_fifth_short (neg : Bool) (K f : Nat) (hK0 : 0 < K) (hK : K < 10 ^ 15)
    (hf : f ≤ 15) :
    ∃ z2 : Nat,
      F64.mul (F64.ofRatio neg K (10 ^ f)) F64.fifth
        = F64.fin (if neg then -(z2 : Int) else (z2 : Int)) ∧
      |(z2 : ℚ) / 2 ^ 1074 - (K : ℚ) / ((5 * 10 ^ f : Nat) : ℚ)| < 1 / ((5 * 10 ^ f : Nat) : ℚ) ∧
      (5 * 10 ^ f ∣ K → (z2 : ℚ) / 2 ^ 1074 = (K : ℚ) / ((5 * 10 ^ f : Nat) : ℚ)) := by
  have hpos : 0 < 10 ^ f := by positivity
  have hP : (0 : ℚ) < 10 ^ f := by positivity
  have hP1 : (1 : ℚ) ≤ 10 ^ f := one_le_pow₀ (by norm_num)
  have hP15 : (10 : ℚ) ^ f ≤ 10 ^ 15 := pow_le_pow_right₀ (by norm_num) hf
  have hKq : (K : ℚ) < 10 ^ 15 := by exact_mod_cast hK
  have hK1 : (1 : ℚ) ≤ K := by exact_mod_cast hK0
  have hd2 : 0 < F64.unit * F64.unit := Nat.mul_pos F64.unit_pos F64.unit_pos
  have hD : ((5 * 10 ^ f : Nat) : ℚ) = 5 * 10 ^ f := by push_cast; ring
  rw [hD]
  by_cases hdvd : 5 * 10 ^ f ∣ K
  · obtain ⟨a, ha⟩ := hdvd
    have ha0 : 0 < a := by
      by_contra h
      have : a = 0 := by omega
      rw [this] at ha
      omega
    have haq : (K : ℚ) = 5 * 10 ^ f * a := by exact_mod_cast ha
    have ha53 : 5 * a < 2 ^ 53 := by
      have h1 : 5 * a ≤ K := by
        rw [ha]
        calc 5 * a = 5 * 1 * a := by ring
          _ ≤ 5 * 10 ^ f * a := Nat.mul_le_mul_right _ (Nat.mul_le_mul_left _ hpos)
      have : (10 : Nat) ^ 15 < 2 ^ 53 := by norm_num
      omega
    have h5a : ((5 * a : Nat) : ℚ) < 2 ^ 53 := by exact_mod_cast ha53
    have hr1 := F64.roundMag_exact K (10 ^ f) hpos (5 * a) 0
      (by rw [haq]; push_cast; field_simp; ring) ha53 (by norm_num)
      (by
        have : (2 : ℚ) ^ 53 ≤ 2 ^ 1024 := by norm_num
        simp only [zpow_zero, mul_one]
        linarith)
    have e0 : ((0 : Int) + 1074).toNat = 1074 := rfl
    rw [e0] at hr1
    rw [fin_signed_eq neg _ hr1, mul_fifth_of_pos neg _ (by positivity)]
    have hq2 := product_ratio (5 * a * 2 ^ 1074)
    have hcast : ((5 * a * 2 ^ 1074 : Nat) : ℚ) = 5 * (a : ℚ) * 2 ^ 1074 := by
      rw [Nat.cast_mul, Nat.cast_mul, Nat.cast_pow]
      rfl
    have hr2 := F64.roundMag_perturbed _ _ hd2 a
      (by
        rw [hq2, hcast]
        field_simp
        ring)
      ha0 (by omega)
    rw [fin_signed_eq neg _ hr2]
    have hcast2 : ((a * 2 ^ 1074 : Nat) : ℚ) = (a : ℚ) * 2 ^ 1074 := by
      rw [Nat.cast_mul, Nat.cast_pow]
      rfl
    have e : ((a * 2 ^ 1074 : Nat) : ℚ) / 2 ^ 1074 = (K : ℚ) / (5 * 10 ^ f) := by
      rw [haq, hcast2]
      field_simp
    refine ⟨_, rfl, ?_, fun _ => e⟩
    rw [e, sub_self, abs_zero]
    positivity
  · obtain ⟨z1, hz1, hb1, hz1pos⟩ := ofRatio_short neg K f hK hf
    rw [hz1, mul_fifth_of_pos neg z1 (hz1pos hK0)]
    have hq2 := product_ratio z1
    have ht_lo : (1 : ℚ) / 10 ^ 15 ≤ (K : ℚ) / 10 ^ f := by
      rw [div_le_div_iff₀ (by positivity) hP]
      nlinarith
    have ht_hi : (K : ℚ) / 10 ^ f < 10 ^ 15 := by
      rw [div_lt_iff₀ hP]
      nlinarith
    rw [abs_le] at hb1
    have hlo : (2 : ℚ) ^ (-1022 : Int)
        ≤ ((z1 * (7205759403792794 * 2 ^ 1019) : Nat) : ℚ) / ((F64.unit * F64.unit : Nat) : ℚ) := by
      rw [hq2]
      have h2 : (2 : ℚ) ^ (-1022 : Int) ≤ 1 / 10 ^ 17 := by
        rw [zpow_neg, ← one_div]
        apply one_div_le_one_div_of_le (by positivity)
        norm_num
      have h3 : (1 : ℚ) / 10 ^ 17 ≤ (z1 : ℚ) / 2 ^ 1074 * ((1 + 1 / 2 ^ 54) / 5) := by
        norm_num at hb1 ht_lo ⊢
        linarith [hb1.1]
      exact le_trans h2 h3
    have hhi : ((z1 * (7205759403792794 * 2 ^ 1019) : Nat) : ℚ) / ((F64.unit * F64.unit : Nat) : ℚ)
        < 2 ^ 1023 := by
      rw [hq2]
      have h2 : (10 : ℚ) ^ 15 ≤ 2 ^ 1023 := by norm_num
      have h3 : (z1 : ℚ) / 2 ^ 1074 * ((1 + 1 / 2 ^ 54) / 5) < 10 ^ 15 := by
        norm_num at hb1 ht_hi ⊢
        linarith [hb1.2]
      exact lt_of_lt_of_le h3 h2
    obtain ⟨z2, hz2, hb2⟩ := F64.roundMag_rel _ _ hd2 hlo hhi
    rw [hq2, abs_le] at hb2
    rw [fin_signed_eq neg _ hz2]
    refine ⟨z2, rfl, ?_, fun h => absurd h hdvd⟩
    have hsmall : (K : ℚ) / 10 ^ f * (3 / 2 ^ 53) < 1 / 10 ^ f := by
      rw [div_mul_eq_mul_div, div_lt_div_iff₀ hP hP]
      have : (K : ℚ) * (3 / 2 ^ 53) < 1 := by
        calc (K : ℚ) * (3 / 2 ^ 53) < 10 ^ 15 * (3 / 2 ^ 53) :=
              mul_lt_mul_of_pos_right hKq (by positivity)
          _ < 1 := by norm_num
      nlinarith
    have e5 : (K : ℚ) / (5 * 10 ^ f) = (K : ℚ) / 10 ^ f / 5 := by
      rw [div_div, mul_comm]
    have e6 : (1 : ℚ) / (5 * 10 ^ f) = 1 / 10 ^ f / 5 := by
      rw [div_div, mul_comm]
    rw [e5, e6, abs_lt]
    norm_num at hb1 hb2 hsmall ⊢
    constructor
    · linarith [hb1.1, hb2.1]
    · linarith [hb1.2, hb2.2]

theorem InRange_ceil (x : ℚ) (h1 : -(10 : ℚ) ^ 15 ≤ x) (h2 : x ≤ 10 ^ 15) : InRange ⌈x⌉ := by
  constructor
  · have h3 : ((-(10 ^ 15) : Int) : ℚ) ≤ x := by push_cast; exact h1
    have h4 : (-(10 ^ 15) : Int) ≤ ⌈x⌉ := by
      exact_mod_cast le_trans h3 (Int.le_ceil x)
    have : -(2 ^ 63 : Int) ≤ -(10 ^ 15) := by norm_num
    omega
  · have h3 : ⌈x⌉ ≤ (10 ^ 15 : Int) := by
      rw [Int.ceil_le]
      push_cast
      exact h2
    have : (10 ^ 15 : Int) < 2 ^ 63 := by norm_num
    omega

/-- What rule 5 computes for a price that is a plain decimal text of at most
15 digits: the ceiling of the exact fifth of the price. -/
theorem price_points_short (arch : Arch) (t : DecimalText) (hip : t.intDigits ≠ [])
    (hlen : t.intDigits.length + t.fracDigits.length ≤ 15) :
    toInt arch (F64.Ceil (F64.mul (strconv.ParseFloat t.text).1 F64.fifth))
      = ⌈t.value * (2 / 10)⌉ := by
  have hK := t.digits_lt hlen
  have hf : t.fracDigits.length ≤ 15 := by omega
  have hP : (0 : ℚ) < 10 ^ t.fracDigits.length := by positivity
  rw [ParseFloat_decimal t hip]
  by_cases h0 : t.digits = 0
  · have hv : t.value = 0 := by
      unfold DecimalText.value
      rw [h0]
      simp
    have hprice : F64.ofRatio t.neg t.digits (10 ^ t.fracDigits.length) = F64.fin 0 := by
      unfold F64.ofRatio
      rw [h0, F64.roundMag_zero _ (by positivity)]
      simp
    rw [hprice, mul_fifth_zero, hv, toInt_Ceil arch 0 (by simpa using InRange_zero)]
    simp
  · have hK0 : 0 < t.digits := Nat.pos_of_ne_zero h0
    obtain ⟨z2, hz2, hnear, hex⟩ := mul_fifth_short t.neg t.digits t.fracDigits.length hK0 hK hf
    have hD : ((5 * 10 ^ t.fracDigits.length : Nat) : ℚ) = 5 * 10 ^ t.fracDigits.length := by
      push_cast; ring
    have hKq : (t.digits : ℚ) < 10 ^ 15 := by exact_mod_cast hK
    have hK0q : (0 : ℚ) ≤ t.digits := Nat.cast_nonneg _
    have hxle : (t.digits : ℚ) / (5 * 10 ^ t.fracDigits.length) ≤ 10 ^ 15 := by
      rw [div_le_iff₀ (by positivity)]
      have : (1 : ℚ) ≤ 10 ^ t.fracDigits.length := one_le_pow₀ (by norm_num)
      nlinarith
    have hx0 : (0 : ℚ) ≤ (t.digits : ℚ) / (5 * 10 ^ t.fracDigits.length) := by positivity
    have hval : t.value * (2 / 10)
        = (((if t.neg then -(t.digits : Int) else (t.digits : Int)) : Int) : ℚ)
          / ((5 * 10 ^ t.fracDigits.length : Nat) : ℚ) := by
      unfold DecimalText.value
      rw [hD]
      cases t.neg with
      | false =>
        simp only [Bool.false_eq_true, if_false, one_mul, Int.cast_natCast]
        field_simp
        ring
      | true =>
        simp only [if_true, Int.cast_neg, Int.cast_natCast]
        field_simp
        ring
    have hceil : ⌈(((if t.neg then -(z2 : Int) else (z2 : Int)) : Int) : ℚ) / 2 ^ 1074⌉
        = ⌈t.value * (2 / 10)⌉ := by
      rw [hval]
      apply ceil_eq_of_near _ _ (by positivity)
      · cases t.neg with
        | false =>
          simpa using hnear
        | true =>
          simp only [if_true, Int.cast_neg, Int.cast_natCast]
          rw [neg_div, neg_div, ← neg_sub', abs_neg]
          exact hnear
      · intro hdvd
        have hdvd' : 5 * 10 ^ t.fracDigits.length ∣ t.digits := by
          cases hn : t.neg with
          | false =>
            rw [hn] at hdvd
            simp only [Bool.false_eq_true, if_false] at hdvd
            exact Int.natCast_dvd_natCast.1 hdvd
          | true =>
            rw [hn] at hdvd
            simp only [if_true, dvd_neg] at hdvd
            exact Int.natCast_dvd_natCast.1 hdvd
        have := hex hdvd'
        cases t.neg with
        | false => simpa using this
        | true =>
          simp only [if_true, Int.cast_neg, Int.cast_natCast]
          rw [neg_div, neg_div, this]
    have hrange : InRange ⌈t.value * (2 / 10)⌉ := by
      apply InRange_ceil
      · rw [hval, hD]
        cases t.neg with
        | false =>
          simp only [Bool.false_eq_true, if_false, Int.cast_natCast]
          have : -(10 : ℚ) ^ 15 ≤ 0 := by norm_num
          linarith
        | true =>
          simp only [if_true, Int.cast_neg, Int.cast_natCast]
          rw [neg_div]
          linarith
      · rw [hval, hD]
        cases t.neg with
        | false =>
          simp only [Bool.false_eq_true, if_false, Int.cast_natCast]
          exact hxle
        | true =>
          simp only [if_true, Int.cast_neg, Int.cast_natCast]
          rw [neg_div]
          have : (0 : ℚ) ≤ 10 ^ 15 := by norm_num
          linarith
    rw [hz2, toInt_Ceil arch _ (by rw [hceil]; exact hrange), hceil]

/-- The points of an item whose price is a finite float64 from 0 up to
`2 ^ 62` are not negative. -/
theorem price_points_nonneg (arch : Arch) (z : Int) (hz0 : 0 ≤ z)
    (hz : z < 2 ^ 62 * (F64.unit : Int)) :
    0 ≤ toInt arch (F64.Ceil (F64.mul (F64.fin z) F64.fifth)) := by
  obtain ⟨z1, rfl⟩ := Int.eq_ofNat_of_zero_le hz0
  by_cases h0 : z1 = 0
  · subst h0
    have h := toInt_Ceil arch 0 (by simpa using InRange_zero)
    simp only [Nat.cast_zero] at h ⊢
    rw [mul_fifth_zero, h]
    simp
  · have hz1 : 0 < z1 := Nat.pos_of_ne_zero h0
    have hm := mul_fifth_of_pos false z1 hz1
    simp only [Bool.false_eq_true, if_false] at hm
    rw [hm]
    have hd2 : 0 < F64.unit * F64.unit := Nat.mul_pos F64.unit_pos F64.unit_pos
    have hq2 := product_ratio z1
    have hv1 : (z1 : ℚ) / 2 ^ 1074 < 2 ^ 62 := by
      rw [div_lt_iff₀ (by positivity)]
      have : ((z1 : Int) : ℚ) < ((2 ^ 62 * (F64.unit : Int) : Int) : ℚ) := by exact_mod_cast hz
      push_cast at this
      rw [F64.unit_cast] at this
      exact_mod_cast this
    have hv0 : (0 : ℚ) ≤ (z1 : ℚ) / 2 ^ 1074 := by positivity
    have hq62 : (z1 : ℚ) / 2 ^ 1074 * ((1 + 1 / 2 ^ 54) / 5) ≤ 2 ^ 60 := by
      have hc : ((1 : ℚ) + 1 / 2 ^ 54) / 5 ≤ 1 / 4 := by norm_num
      have hc0 : (0 : ℚ) ≤ (1 + 1 / 2 ^ 54) / 5 := by positivity
      calc (z1 : ℚ) / 2 ^ 1074 * ((1 + 1 / 2 ^ 54) / 5)
          ≤ 2 ^ 62 * (1 / 4) := mul_le_mul hv1.le hc hc0 (by positivity)
        _ = 2 ^ 60 := by norm_num
    obtain ⟨z2, hr2, hle⟩ := F64.roundMag_le _ _ hd2 (by
      rw [hq2]
      have : (2 : ℚ) ^ 60 < 2 ^ 1022 := by norm_num
      exact lt_of_le_of_lt hq62 this)
    rw [hq2] at hle
    have hf := fin_signed_eq false _ hr2
    simp only [Bool.false_eq_true, if_false] at hf
    rw [hf]
    have hz2 : (0 : ℚ) ≤ ((z2 : Int) : ℚ) / 2 ^ 1074 := by
      have : (0 : ℚ) ≤ (z2 : ℚ) := Nat.cast_nonneg _
      simp only [Int.cast_natCast]
      positivity
    have hc0 : 0 ≤ ⌈((z2 : Int) : ℚ) / 2 ^ 1074⌉ := Int.ceil_nonneg hz2
    have hc1 : ⌈((z2 : Int) : ℚ) / 2 ^ 1074⌉ ≤ 2 ^ 62 := by
      rw [Int.ceil_le]
      simp only [Int.cast_natCast]
      have : (2 : ℚ) * 2 ^ 60 + 1 ≤ ((2 ^ 62 : Int) : ℚ) := by norm_num
      linarith
    rw [toInt_Ceil arch _ ⟨by omega, by
      have : (2 ^ 62 : Int) < 2 ^ 63 := by norm_num
      omega⟩]
    exact hc0

/-! ## The store, the handlers and the seven rules -/

theorem index_of_some {m : Store} {id : String} {r : Receipt} (h : m id = some r) :
    m.index id = r := by
  simp [Store.index, h]

theorem index_of_none {m : Store} {id : String} (h : m id = none) :
    m.index id = Receipt.zero := by
  simp [Store.index, h]

theorem scoreReceipt_zero (arch : Arch) : scoreReceipt arch Receipt.zero = 56 := by
  rfl

theorem process_ok (uuid : Nat → String) (r : Receipt) (sv : Server) :
    ProcessReceiptHandler uuid (.ok r) sv =
      (Response.jsonId 200 (uuid sv.generated),
        ⟨sv.receiptData.assign (uuid sv.generated) r, sv.generated + 1⟩) := by
  rfl

theorem process_error (uuid : Nat → String) (e : String) (sv : Server) :
    ProcessReceiptHandler uuid (.error e) sv = (Response.error 400 e, sv) := by
  rfl

theorem assign_same (m : Store) (id : String) (r : Receipt) : (m.assign id r) id = some r := by
  simp [Store.assign]

theorem assign_other (m : Store) (id k : String) (r : Receipt) (h : k ≠ id) :
    (m.assign id r) k = m k := by
  simp [Store.assign, h]

theorem submitAll_keeps (uuid : Nat → String) (g : String) (r : Receipt) :
    ∀ (ds : List (Except String Receipt)) (sv : Server), FreshRun uuid ds sv →
      sv.receiptData g = some r → (submitAll uuid ds sv).receiptData g = some r := by
  intro ds
  induction ds with
  | nil => intro sv _ h; exact h
  | cons d ds ih =>
    intro sv hf h
    cases d with
    | error e =>
      simp only [submitAll, process_error]
      exact ih sv (by simpa [FreshRun, process_error] using hf) h
    | ok r1 =>
      simp only [FreshRun, process_ok] at hf
      simp only [submitAll, process_ok]
      apply ih _ hf.2
      have hne : g ≠ uuid sv.generated := by
        intro heq
        rw [heq, hf.1] at h
        cases h
      simpa [assign_other _ _ _ _ hne] using h

theorem alnum_test (c : Char) :
    (('a' ≤ c ∧ c ≤ 'z') ∨ ('A' ≤ c ∧ c ≤ 'Z') ∨ ('0' ≤ c ∧ c ≤ '9')) ↔ asciiAlnum c = true := by
  simp only [asciiAlnum, decide_eq_true_eq, Char.le_def]
  rfl

theorem countAlnum_eq (s : List Char) (acc : Int) :
    countAlnum s acc = acc + ((s.filter asciiAlnum).length : Int) := by
  induction s generalizing acc with
  | nil => simp [countAlnum]
  | cons c cs ih =>
    by_cases hc : asciiAlnum c = true
    · have := (alnum_test c).2 hc
      simp only [countAlnum, this, if_true, List.filter_cons, hc, ih, List.length_cons]
      push_cast
      ring
    · have hn : ¬ (('a' ≤ c ∧ c ≤ 'z') ∨ ('A' ≤ c ∧ c ≤ 'Z') ∨ ('0' ≤ c ∧ c ≤ '9')) :=
        fun h => hc ((alnum_test c).1 h)
      simp only [countAlnum, hn, if_false, List.filter_cons, hc, ih]
      simp

theorem replaceAll_space (s : List Char) :
    (strings.ReplaceAll s ' ' []).filter asciiAlnum = s.filter asciiAlnum := by
  induction s with
  | nil => simp [strings.ReplaceAll]
  | cons c cs ih =>
    by_cases hc : c = ' '
    · subst hc
      have : asciiAlnum ' ' = false := by decide
      simp [strings.ReplaceAll, ih, this]
    · simp [strings.ReplaceAll, hc, ih, List.filter_cons]

theorem rule1_eq (r : Receipt) (points : Int) :
    rule1 r points = add64 points ((r.Retailer.data.filter asciiAlnum).length : Int) := by
  simp [rule1, countAlnum_eq, replaceAll_space]

theorem term1_eq (retailer : String) :
    term1 retailer = wrap64 ((retailer.data.filter asciiAlnum).length : Int) := by
  unfold term1
  rw [rule1_eq]
  simp [add64, Receipt.ofRetailer]

theorem rule1_wrap (r : Receipt) (p : Int) :
    wrap64 (rule1 r p) = wrap64 (p + term1 r.Retailer) := by
  rw [rule1_eq, term1_eq, wrap64_add64, wrap64_add_wrap64]

theorem rule2_wrap (r : Receipt) (p : Int) :
    wrap64 (rule2 r p) = wrap64 (p + term2 r.Total) := by
  unfold term2 rule2
  simp only [Receipt.ofTotal]
  split
  · rw [wrap64_add64, add64, wrap64_add_wrap64]
    simp
  · simp

theorem rule3_wrap (r : Receipt) (p : Int) :
    wrap64 (rule3 r p) = wrap64 (p + term3 r.Total) := by
  unfold term3 rule3
  simp only [Receipt.ofTotal]
  split
  · rw [wrap64_add64, add64, wrap64_add_wrap64]
    simp
  · simp

theorem rule4_wrap (r : Receipt) (p : Int) :
    wrap64 (rule4 r p) = wrap64 (p + term4 r.Items.length) := by
  unfold term4 rule4
  simp only [Receipt.ofItems, List.length_replicate]
  rw [wrap64_add64, add64, wrap64_add_wrap64]
  simp

theorem rule5Item_wrap (arch : Arch) (item : Item) (p : Int) :
    wrap64 (rule5Item arch item p) = wrap64 (p + itemPoints arch item) := by
  unfold itemPoints rule5Item
  simp only []
  split
  · rw [wrap64_add64, add64, wrap64_add_wrap64]
    simp
  · simp

theorem rule5Item_range (arch : Arch) (item : Item) (p : Int) (h : InRange p) :
    InRange (rule5Item arch item p) := by
  unfold rule5Item
  simp only []
  split
  · exact InRange_wrap64 _
  · exact h

theorem rule5Loop_wrap (arch : Arch) (items : List Item) (p : Int) :
    wrap64 (rule5Loop arch items p) = wrap64 (p + itemsSum arch items) := by
  induction items generalizing p with
  | nil => simp [rule5Loop, itemsSum]
  | cons item rest ih =>
    simp only [rule5Loop, itemsSum, List.map_cons, List.sum_cons]
    rw [ih, ← wrap64_wrap64_add, rule5Item_wrap, wrap64_wrap64_add]
    simp only [itemsSum]
    congr 1
    ring

theorem rule5Loop_range (arch : Arch) (items : List Item) (p : Int) (h : InRange p) :
    InRange (rule5Loop arch items p) := by
  induction items generalizing p with
  | nil => exact h
  | cons item rest ih => exact ih _ (rule5Item_range arch item p h)

theorem term5_eq (arch : Arch) (items : List Item) :
    term5 arch items = wrap64 (itemsSum arch items) := by
  have h := rule5Loop_wrap arch items 0
  rw [wrap64_of_InRange (rule5Loop_range arch items 0 InRange_zero)] at h
  simpa [term5, rule5, Receipt.ofItems] using h

theorem rule5_wrap (arch : Arch) (r : Receipt) (p : Int) :
    wrap64 (rule5 arch r p) = wrap64 (p + term5 arch r.Items) := by
  rw [term5_eq, wrap64_add_wrap64]
  exact rule5Loop_wrap arch r.Items p

theorem rule6_wrap (r : Receipt) (p : Int) :
    wrap64 (rule6 r p) = wrap64 (p + term6 r.PurchaseDate) := by
  unfold term6 rule6
  simp only [Receipt.ofDate]
  split
  · rw [wrap64_add64, add64, wrap64_add_wrap64]
    simp
  · simp

theorem rule7_wrap (r : Receipt) (p : Int) :
    wrap64 (rule7 r p) = wrap64 (p + term7 r.PurchaseTime) := by
  unfold term7 rule7
  simp only [Receipt.ofTime]
  split
  · rw [wrap64_add64, add64, wrap64_add_wrap64]
    simp
  · simp

theorem rule7_range (r : Receipt) (p : Int) (h : InRange p) : InRange (rule7 r p) := by
  unfold rule7
  simp only []
  split
  · exact InRange_wrap64 _
  · exact h

theorem rule6_range (r : Receipt) (p : Int) (h : InRange p) : InRange (rule6 r p) := by
  unfold rule6
  simp only []
  split
  · exact InRange_wrap64 _
  · exact h

theorem scoreReceipt_range (arch : Arch) (r : Receipt) : InRange (scoreReceipt arch r) := by
  unfold scoreReceipt
  apply rule7_range
  apply rule6_range
  apply rule5Loop_range
  exact InRange_wrap64 _

/-- The score is the sum of the seven isolated contributions, reduced to a Go
`int`. -/
theorem scoreReceipt_eq_sum (arch : Arch) (r : Receipt) :
    scoreReceipt arch r =
      wrap64 (term1 r.Retailer + term2 r.Total + term3 r.Total + term4 r.Items.length +
        term5 arch r.Items + term6 r.PurchaseDate + term7 r.PurchaseTime) := by
  rw [← wrap64_of_InRange (scoreReceipt_range arch r)]
  unfold scoreReceipt
  simp only []
  rw [rule7_wrap, ← wrap64_wrap64_add, rule6_wrap, ← wrap64_wrap64_add (rule5 _ _ _),
    rule5_wrap, ← wrap64_wrap64_add (rule4 _ _), rule4_wrap, ← wrap64_wrap64_add (rule3 _ _),
    rule3_wrap, ← wrap64_wrap64_add (rule2 _ _), rule2_wrap, ← wrap64_wrap64_add (rule1 _ _),
    rule1_wrap]
  simp only [wrap64_wrap64_add, zero_add]

theorem itemPoints_eq (arch : Arch) (item : Item) :
    itemPoints arch item =
      if strings.len (strings.TrimSpace item.ShortDescription.data) % 3 = 0 then
        wrap64 (toInt arch (F64.Ceil (F64.mul (strconv.ParseFloat item.Price).1 F64.fifth)))
      else 0 := by
  unfold itemPoints rule5Item
  simp only [add64, zero_add]

theorem toInt_range (arch : Arch) (f : F64) : InRange (toInt arch f) := by
  cases f with
  | fin z =>
    unfold toInt
    simp only []
    split_ifs <;> first | assumption | exact InRange_wrap64 _
  | pinf => exact InRange_wrap64 _
  | ninf => exact InRange_wrap64 _
  | nan => exact InRange_wrap64 _

theorem itemsSum_nonneg (arch : Arch) (items : List Item)
    (h : ∀ item ∈ items, 0 ≤ itemPoints arch item) : 0 ≤ itemsSum arch items := by
  induction items with
  | nil => simp [itemsSum]
  | cons item rest ih =>
    simp only [itemsSum, List.map_cons, List.sum_cons]
    have h1 := h item (List.mem_cons_self _ _)
    have h2 := ih (fun i hi => h i (List.mem_cons_of_mem _ hi))
    simp only [itemsSum] at h2
    omega

theorem scoreReceipt_eq_exactSum (arch : Arch) (r : Receipt) :
    scoreReceipt arch r = wrap64 (exactSum arch r) := by
  rw [scoreReceipt_eq_sum, term1_eq, term5_eq]
  have h4 : term4 r.Items.length = wrap64 (5 * ((r.Items.length / 2 : Nat) : Int)) := by
    simp [term4, rule4, Receipt.ofItems, add64]
  rw [h4]
  unfold exactSum
  have e1 : ∀ a b c d e f g : Int,
      wrap64 (wrap64 a + b + c + wrap64 d + wrap64 e + f + g) = wrap64 (a + b + c + d + e + f + g) := by
    intro a b c d e f g
    unfold wrap64
    norm_num
    omega
  exact e1 _ _ _ _ _ _ _

theorem term_nonneg (total date time : String) :
    0 ≤ term2 total ∧ 0 ≤ term3 total ∧ 0 ≤ term6 date ∧ 0 ≤ term7 time := by
  refine ⟨?_, ?_, ?_, ?_⟩
  · unfold term2 rule2
    simp only []
    split
    · decide
    · exact le_refl _
  · unfold term3 rule3
    simp only []
    split
    · decide
    · exact le_refl _
  · unfold term6 rule6
    simp only []
    split
    · decide
    · exact le_refl _
  · unfold term7 rule7
    simp only []
    split
    · decide
    · exact le_refl _

/-! ## `time.Parse` on valid dates and times, and on errors -/

theorem ofNat_digit (k : Nat) (h : k < 10) : (Char.ofNat (48 + k)).toNat = 48 + k := by
  interval_cases k <;> rfl

theorem ofNat_digit_ne (k : Nat) (h : k < 10) (c : Char) (hc : c.toNat < 48 ∨ 57 < c.toNat) :
    Char.ofNat (48 + k) ≠ c := by
  intro heq
  have := ofNat_digit k h
  rw [heq] at this
  omega

theorem time_isDigit_ofNat (k : Nat) (h : k < 10) : time.isDigit (Char.ofNat (48 + k)) = true := by
  unfold time.isDigit
  rw [ofNat_digit k h]
  simp
  omega

theorem getnum_twoDigits (n : Nat) (h : n < 100) (rest : List Char) (fixed : Bool) :
    time.getnum (twoDigits n ++ rest) fixed = some (n, rest) := by
  have h1 : n / 10 < 10 := by omega
  have h2 : n % 10 < 10 := by omega
  unfold twoDigits time.getnum
  simp only [List.cons_append, List.nil_append, time_isDigit_ofNat _ h1, time_isDigit_ofNat _ h2,
    ofNat_digit _ h1, ofNat_digit _ h2, not_true_eq_false, if_false, if_true]
  congr 2
  omega

theorem parse_year (y : Nat) (h : y ≤ 9999) (rest : List Char) (f : time.Fields) :
    time.parseStd .stdLongYear (fourDigits y ++ rest) f = some ({ f with year := y }, rest) := by
  have h1 : y / 1000 < 10 := by omega
  have h2 : y / 100 % 10 < 10 := by omega
  have h3 : y / 10 % 10 < 10 := by omega
  have h4 : y % 10 < 10 := by omega
  unfold fourDigits time.parseStd
  simp only [List.cons_append, List.nil_append, time_isDigit_ofNat _ h1, time_isDigit_ofNat _ h2,
    time_isDigit_ofNat _ h3, time_isDigit_ofNat _ h4, ofNat_digit _ h1, ofNat_digit _ h2,
    ofNat_digit _ h3, ofNat_digit _ h4, and_self, if_true]
  congr 3
  omega

theorem skip_nil (v : List Char) : time.skip v [] = some v := by
  unfold time.skip
  rfl

theorem skip_one (c : Char) (v : List Char) : time.skip (c :: v) [c] = some v := by
  unfold time.skip
  simp [skip_nil]

theorem daysIn_eq_monthLength (y m : Nat) (h1 : 1 ≤ m) (h2 : m ≤ 12) :
    time.daysIn m y = monthLength y m := by
  have hleap : (y % 4 = 0 ∧ (y % 100 ≠ 0 ∨ y % 400 = 0)) ↔
      ((y % 4 = 0 ∧ y % 100 ≠ 0) ∨ y % 400 = 0) := by omega
  interval_cases m <;> simp [time.daysIn, time.isLeap, monthLength, hleap]

/-- Go `time.Parse("2006-01-02", ...)` on the text of a valid date: that date,
at midnight, and no error. -/
theorem Parse_dateText (y m d : Nat) (hv : ValidDate y m d) :
    time.Parse time.layoutDate (dateText y m d) = (time.Date y m d 0 0, false) := by
  obtain ⟨hy, hm1, hm12, hd1, hd⟩ := hv
  have hml : monthLength y m ≤ 31 := by
    interval_cases m <;> simp only [monthLength] <;> first | omega | (split <;> omega)
  have hchunks : time.parseChunks time.layoutDate (dateText y m d).data ⟨0, none, none, 0, 0⟩
      = some (⟨y, some m, some d, 0, 0⟩, []) := by
    have hdata : (dateText y m d).data
        = fourDigits y ++ ('-' :: (twoDigits m ++ ('-' :: (twoDigits d ++ [])))) := by
      simp [dateText]
    rw [hdata]
    have hm0 : ¬ (m = 0 ∨ 12 < m) := by omega
    have hmonth : ∀ (rest : List Char) (f : time.Fields),
        time.parseStd .stdZeroMonth (twoDigits m ++ rest) f
          = some ({ f with month := some m }, rest) := by
      intro rest f
      simp only [time.parseStd, getnum_twoDigits m (by omega), hm0, if_false]
    have hday : ∀ (rest : List Char) (f : time.Fields),
        time.parseStd .stdZeroDay (twoDigits d ++ rest) f
          = some ({ f with day := some d }, rest) := by
      intro rest f
      simp only [time.parseStd, getnum_twoDigits d (by omega)]
    simp only [time.layoutDate, time.parseChunks, skip_nil, skip_one, parse_year y hy, hmonth,
      hday]
  unfold time.Parse
  rw [hchunks]
  simp only [ne_eq, not_true_eq_false, if_false, Option.getD_some]
  rw [daysIn_eq_monthLength y m hm1 hm12]
  have hok : ¬ (d < 1 ∨ monthLength y m < d) := by omega
  rw [if_neg hok]

/-- Go `time.Parse("15:04", ...)` on the text of a time of day: that time on
January 1 of the year 0, and no error. -/
theorem Parse_clockText (h m : Nat) (hh : h < 24) (hm : m < 60) :
    time.Parse time.layoutClock (clockText h m) = (time.Date 0 1 1 h m, false) := by
  have hchunks : time.parseChunks time.layoutClock (clockText h m).data ⟨0, none, none, 0, 0⟩
      = some (⟨0, none, none, h, m⟩, []) := by
    have hdata : (clockText h m).data = twoDigits h ++ (':' :: (twoDigits m ++ [])) := by
      simp [clockText]
    rw [hdata]
    have h24 : ¬ (24 ≤ h) := by omega
    have h60 : ¬ (60 ≤ m) := by omega
    have hhour : ∀ (rest : List Char) (f : time.Fields),
        time.parseStd .stdHour (twoDigits h ++ rest) f = some ({ f with hour := h }, rest) := by
      intro rest f
      simp only [time.parseStd, getnum_twoDigits h (by omega), h24, if_false]
    have hmin : ∀ (rest : List Char) (f : time.Fields),
        time.parseStd .stdZeroMinute (twoDigits m ++ rest) f
          = some ({ f with min := m }, rest) := by
      intro rest f
      simp only [time.parseStd, getnum_twoDigits m (by omega), h60, if_false]
    simp only [time.layoutClock, time.parseChunks, skip_nil, skip_one, hhour, hmin]
  unfold time.Parse
  rw [hchunks]
  simp [time.daysIn]

/-- With every error `time.Parse` returns the zero `Time`. -/
theorem Parse_error (layout : List (List Char × time.Std)) (value : String)
    (h : (time.Parse layout value).2 = true) : (time.Parse layout value).1 = time.Time.zero := by
  unfold time.Parse at h ⊢
  cases hc : time.parseChunks layout value.data ⟨0, none, none, 0, 0⟩ with
  | none => rfl
  | some p =>
    obtain ⟨f, rest⟩ := p
    simp only [hc] at h ⊢
    split_ifs at h ⊢ <;> rfl

/-! ## Numbers that do not parse, the two rules on the total, and the order of the items -/

/-- A syntax error of `ParseFloat` comes with the value 0. -/
theorem ParseFloat_syntax_zero (s : String)
    (h : (strconv.ParseFloat s).2 = some strconv.NumError.ErrSyntax) :
    (strconv.ParseFloat s).1 = F64.zero := by
  unfold strconv.ParseFloat at h ⊢
  cases hs : strconv.special s.data with
  | some p =>
    obtain ⟨f, n⟩ := p
    simp only [hs] at h ⊢
    split_ifs at h ⊢
    rfl
  | none =>
    simp only [hs] at h ⊢
    cases hr : strconv.readFloat s.data with
    | none => rfl
    | some q =>
      obtain ⟨p, rest⟩ := q
      simp only [hr] at h ⊢
      split_ifs at h ⊢
      · rfl
      · simp at h

theorem ParseFloat_zero_text : (strconv.ParseFloat "0").1 = F64.zero := by decide

theorem term2_congr (a b : String)
    (h : (strconv.ParseFloat a).1 = (strconv.ParseFloat b).1) : term2 a = term2 b := by
  unfold term2 rule2
  simp only [Receipt.ofTotal, h]

theorem term3_congr (a b : String)
    (h : (strconv.ParseFloat a).1 = (strconv.ParseFloat b).1) : term3 a = term3 b := by
  unfold term3 rule3
  simp only [Receipt.ofTotal, h]

theorem itemPoints_congr (arch : Arch) (desc a b : String)
    (h : (strconv.ParseFloat a).1 = (strconv.ParseFloat b).1) :
    itemPoints arch ⟨desc, a⟩ = itemPoints arch ⟨desc, b⟩ := by
  unfold itemPoints rule5Item
  simp only [h]

theorem itemsSum_append (arch : Arch) (xs ys : List Item) :
    itemsSum arch (xs ++ ys) = itemsSum arch xs + itemsSum arch ys := by
  simp [itemsSum]

theorem itemsSum_cons (arch : Arch) (x : Item) (ys : List Item) :
    itemsSum arch (x :: ys) = itemPoints arch x + itemsSum arch ys := by
  simp [itemsSum]

theorem itemsSum_perm (arch : Arch) (xs ys : List Item) (h : xs.Perm ys) :
    itemsSum arch xs = itemsSum arch ys := by
  unfold itemsSum
  exact (h.map (itemPoints arch)).sum_eq

theorem mod_unit_of_mod_quarter {n : Nat} (h : n % 2 ^ 1074 = 0) : n % 2 ^ 1072 = 0 := by
  have h1 : (2 : Nat) ^ 1072 ∣ 2 ^ 1074 := pow_dvd_pow 2 (by norm_num)
  exact Nat.mod_eq_zero_of_dvd (dvd_trans h1 (Nat.dvd_of_mod_eq_zero h))

theorem itemPoints_of_zero (arch : Arch) (desc price : String)
    (h : (strconv.ParseFloat price).1 = F64.zero) : itemPoints arch ⟨desc, price⟩ = 0 := by
  have hc : toInt arch (F64.Ceil (F64.mul (F64.fin 0) F64.fifth)) = 0 := by
    rw [mul_fifth_zero]
    have := toInt_Ceil arch 0 (by simpa using InRange_zero)
    simpa using this
  unfold itemPoints rule5Item
  simp only [h, F64.zero, hc]
  split <;> rfl

/-- What rules 2 and 3 make of a float64 total: either it is greater than
zero, and then rule 3 fires whenever rule 2 does; or it is not, rule 3 does
not fire, and rule 2 fires only for zero and the negative whole numbers. -/
theorem two_rules_cases (v : F64) :
    (F64.gt v F64.zero = true ∧
        (F64.eq (F64.Mod v F64.one) F64.zero = true →
          F64.eq (F64.Mod v F64.quarter) F64.zero = true)) ∨
      (F64.gt v F64.zero = false ∧
        (F64.eq (F64.Mod v F64.one) F64.zero = true →
          ∃ k : Int, k ≤ 0 ∧ v = F64.fin (k * (F64.unit : Int)))) := by
  cases v with
  | fin z =>
    have hA := F64.mod_eq_zero z (2 ^ 1074) (by positivity)
    have hB := F64.mod_eq_zero z (2 ^ 1072) (by positivity)
    rw [← F64.one_eq] at hA
    rw [← F64.quarter_eq] at hB
    by_cases hz : 0 < z
    · left
      refine ⟨by simp [F64.gt, F64.zero, hz], fun h => ?_⟩
      rw [hA] at h
      rw [hB]
      exact dvd_trans (pow_dvd_pow 2 (by norm_num)) h
    · right
      refine ⟨by simp [F64.gt, F64.zero, hz], fun h => ?_⟩
      rw [hA] at h
      obtain ⟨q, hq⟩ := h
      refine ⟨-(q : Int), by omega, ?_⟩
      congr 1
      have hz' : z = -((z.natAbs : Nat) : Int) := by omega
      rw [hz', hq]
      unfold F64.unit
      push_cast
      ring
  | pinf =>
    left
    refine ⟨rfl, fun h => ?_⟩
    simp [F64.Mod, F64.eq, F64.one, F64.ofRatio] at h
  | ninf =>
    right
    refine ⟨rfl, fun h => ?_⟩
    simp [F64.Mod, F64.eq, F64.one, F64.ofRatio] at h
  | nan =>
    right
    refine ⟨rfl, fun h => ?_⟩
    simp [F64.Mod, F64.eq, F64.one, F64.ofRatio] at h

theorem CalculatePoints_assign (arch : Arch) (receiptData : Store) (id : String) (r : Receipt) :
    CalculatePoints arch (receiptData.assign id r) id = scoreReceipt arch r := by
  unfold CalculatePoints
  simp only []
  rw [index_of_some (assign_same receiptData id r)]

/-- A range error of `ParseFloat` comes with an infinity. -/
theorem ParseFloat_range_inf (s : String)
    (h : (strconv.ParseFloat s).2 = some strconv.NumError.ErrRange) :
    (strconv.ParseFloat s).1 = F64.pinf ∨ (strconv.ParseFloat s).1 = F64.ninf := by
  unfold strconv.ParseFloat at h ⊢
  cases hs : strconv.special s.data with
  | some p =>
    obtain ⟨f, n⟩ := p
    simp only [hs] at h ⊢
    split_ifs at h
    simp at h
  | none =>
    simp only [hs] at h ⊢
    cases hr : strconv.readFloat s.data with
    | none => simp [hr] at h
    | some q =>
      obtain ⟨p, rest⟩ := q
      simp only [hr] at h ⊢
      split_ifs at h ⊢ with h1 h2
      · simp at h
      · exact h2

theorem rule2_of_inf (r : Receipt) (points : Int)
    (h : (strconv.ParseFloat r.Total).1 = F64.pinf ∨ (strconv.ParseFloat r.Total).1 = F64.ninf) :
    rule2 r points = points := by
  unfold rule2
  rcases h with h | h <;> simp [h, F64.Mod, F64.eq]

theorem rule3_of_inf (r : Receipt) (points : Int)
    (h : (strconv.ParseFloat r.Total).1 = F64.pinf ∨ (strconv.ParseFloat r.Total).1 = F64.ninf) :
    rule3 r points = points := by
  unfold rule3
  rcases h with h | h <;> simp [h, F64.Mod, F64.eq]

theorem mul_fifth_inf (v : F64) (h : v = F64.pinf ∨ v = F64.ninf) :
    F64.Ceil (F64.mul v F64.fifth) = v := by
  rw [F64.fifth_eq]
  rcases h with h | h <;> subst h <;> simp [F64.mul, F64.Ceil]

theorem rule5Item_of_inf (arch : Arch) (item : Item) (points : Int)
    (h : (strconv.ParseFloat item.Price).1 = F64.pinf ∨
      (strconv.ParseFloat item.Price).1 = F64.ninf) :
    rule5Item arch item points =
      if strings.len (strings.TrimSpace item.ShortDescription.data) % 3 = 0 then
        add64 points (arch.convOutOfRange (strconv.ParseFloat item.Price).1)
      else points := by
  unfold rule5Item
  simp only []
  rw [mul_fifth_inf _ h]
  split
  · rcases h with h | h <;> rw [h] <;> simp only [toInt, add64, wrap64_add_wrap64]
  · rfl

/-! ## C1: unknown id -/

/-- C1 fails on the code: for every store and every id that is not a key of
the store, `GetPointsHandler` answers 200 with the score 56 (the zero-value
receipt gets 50 points from rule 2 and 6 from rule 6), not 404 with
"Receipt not found". -/
theorem C1_unknown_id_scores_56 (arch : Arch) (receiptData : Store) (id : String)
    (h : receiptData id = none) :
    GetPointsHandler arch receiptData id = Response.jsonInt 200 56 := by
  have hs : CalculatePoints arch receiptData id = 56 := by
    unfold CalculatePoints
    rw [index_of_none h]
    exact scoreReceipt_zero arch
  simp [GetPointsHandler, hs]

/-- The C1 behaviour at the empty store and the id `"never-submitted"`. -/
theorem C1_unknown_id_scores_56_witness :
    Store.empty "never-submitted" = none ∧
      GetPointsHandler Arch.amd64 Store.empty "never-submitted" = Response.jsonInt 200 56 :=
  ⟨rfl, C1_unknown_id_scores_56 Arch.amd64 Store.empty "never-submitted" rfl⟩

/-! ## C2: known id -/

/-- C2 as stated fails: the receipt `zeroScoreReceipt` is stored under `"a"`,
its score is 0, and `GetPointsHandler` answers 404 "Receipt not found"
instead of 200 with the score 0. -/
theorem C2_zero_score_gets_404 :
    (Store.empty.assign "a" zeroScoreReceipt) "a" = some zeroScoreReceipt ∧
      scoreReceipt Arch.amd64 zeroScoreReceipt = 0 ∧
      GetPointsHandler Arch.amd64 (Store.empty.assign "a" zeroScoreReceipt) "a"
        = Response.error 404 "Receipt not found" ∧
      GetPointsHandler Arch.amd64 (Store.empty.assign "a" zeroScoreReceipt) "a"
        ≠ Response.jsonInt 200 (scoreReceipt Arch.amd64 zeroScoreReceipt) := by
  refine ⟨by rfl, by rfl, by rfl, ?_⟩
  intro h
  have h2 : GetPointsHandler Arch.amd64 (Store.empty.assign "a" zeroScoreReceipt) "a"
      = Response.error 404 "Receipt not found" := by rfl
  rw [h2] at h
  cases h

/-- C2, what the handler does: for every store and every id that is a key of
the store, `GetPointsHandler` answers 200 with the score computed from the
receipt stored under that id whenever that score is not 0, and 404 "Receipt
not found" when the score is 0, although the receipt is there. -/
theorem C2_known_id_response (arch : Arch) (receiptData : Store) (id : String) (r : Receipt)
    (h : receiptData id = some r) :
    GetPointsHandler arch receiptData id =
      if scoreReceipt arch r = 0 then Response.error 404 "Receipt not found"
      else Response.jsonInt 200 (scoreReceipt arch r) := by
  have hs : CalculatePoints arch receiptData id = scoreReceipt arch r := by
    unfold CalculatePoints
    rw [index_of_some h]
  unfold GetPointsHandler
  simp only [hs]

/-- C2 at a store holding `zeroScoreReceipt` (score 0) under `"a"`: the answer
is 404 "Receipt not found"; and at a store holding `negativePriceReceipt`
(score -20): the answer is 200 with -20. -/
theorem C2_known_id_response_witness :
    (Store.empty.assign "a" zeroScoreReceipt) "a" = some zeroScoreReceipt ∧
      GetPointsHandler Arch.amd64 (Store.empty.assign "a" zeroScoreReceipt) "a"
        = Response.error 404 "Receipt not found" ∧
      (Store.empty.assign "a" negativePriceReceipt) "a" = some negativePriceReceipt ∧
      GetPointsHandler Arch.amd64 (Store.empty.assign "a" negativePriceReceipt) "a"
        = Response.jsonInt 200 (-20) :=
  ⟨rfl,
    (C2_known_id_response Arch.amd64 (Store.empty.assign "a" zeroScoreReceipt) "a"
      zeroScoreReceipt rfl).trans (by rfl),
    rfl,
    (C2_known_id_response Arch.amd64 (Store.empty.assign "a" negativePriceReceipt) "a"
      negativePriceReceipt rfl).trans (by rfl)⟩

/-! ## C3: submission and lookup -/

/-- C3: when the identifier `GenerateReceiptID` returns is not yet a key of
the store, a successful `ProcessReceiptHandler` call with receipt `r`
answers with that identifier `g`, leaves a store in which `g` maps to `r`
and every earlier key maps to what it mapped to before; and after any further
run of submissions whose identifiers are fresh when generated,
`CalculatePoints g` is the score computed from `r` alone. -/
theorem C3_submission_resolves (arch : Arch) (uuid : Nat → String) (sv : Server) (r : Receipt)
    (later : List (Except String Receipt))
    (hfresh : sv.receiptData (uuid sv.generated) = none)
    (hlater : FreshRun uuid later (ProcessReceiptHandler uuid (.ok r) sv).2) :
    (ProcessReceiptHandler uuid (.ok r) sv).1 = Response.jsonId 200 (uuid sv.generated) ∧
      (ProcessReceiptHandler uuid (.ok r) sv).2.receiptData (uuid sv.generated) = some r ∧
      (∀ k r0, sv.receiptData k = some r0 →
        (ProcessReceiptHandler uuid (.ok r) sv).2.receiptData k = some r0) ∧
      CalculatePoints arch
        (submitAll uuid later (ProcessReceiptHandler uuid (.ok r) sv).2).receiptData
        (uuid sv.generated) = scoreReceipt arch r := by
  have hg : (ProcessReceiptHandler uuid (.ok r) sv).2.receiptData (uuid sv.generated) = some r := by
    rw [process_ok]
    exact assign_same _ _ _
  refine ⟨by rw [process_ok], hg, ?_, ?_⟩
  · intro k r0 hk
    rw [process_ok]
    have hne : k ≠ uuid sv.generated := by
      intro heq
      rw [heq, hfresh] at hk
      cases hk
    simpa [assign_other _ _ _ _ hne] using hk
  · unfold CalculatePoints
    rw [index_of_some (submitAll_keeps uuid _ r later _ hlater hg)]

/-- C3 at the empty store: `zeroScoreReceipt` is submitted, then a body that
does not decode and `negativePriceReceipt`. -/
theorem C3_submission_resolves_witness :
    (ProcessReceiptHandler sampleUuid (.ok zeroScoreReceipt) ⟨Store.empty, 0⟩).1
        = Response.jsonId 200 (sampleUuid 0) ∧
      (ProcessReceiptHandler sampleUuid (.ok zeroScoreReceipt) ⟨Store.empty, 0⟩).2.receiptData
        (sampleUuid 0) = some zeroScoreReceipt ∧
      (∀ k r0, Store.empty k = some r0 →
        (ProcessReceiptHandler sampleUuid (.ok zeroScoreReceipt) ⟨Store.empty, 0⟩).2.receiptData k
          = some r0) ∧
      CalculatePoints Arch.amd64
        (submitAll sampleUuid [.error "EOF", .ok negativePriceReceipt]
          (ProcessReceiptHandler sampleUuid (.ok zeroScoreReceipt)
            ⟨Store.empty, 0⟩).2).receiptData
        (sampleUuid 0) = scoreReceipt Arch.amd64 zeroScoreReceipt :=
  C3_submission_resolves Arch.amd64 sampleUuid ⟨Store.empty, 0⟩ zeroScoreReceipt
    [.error "EOF", .ok negativePriceReceipt] rfl (by
      simp only [FreshRun, process_ok, process_error]
      exact ⟨by decide, trivial⟩)

/-! ## C4: sign of the score -/

/-- C4 as stated fails: the receipt `negativePriceReceipt`, stored under
`"a"`, has the score -20. -/
theorem C4_negative_score :
    CalculatePoints Arch.amd64 (Store.empty.assign "a" negativePriceReceipt) "a" = -20 ∧
      ¬ (0 ≤ CalculatePoints Arch.amd64 (Store.empty.assign "a" negativePriceReceipt) "a") := by
  have h : CalculatePoints Arch.amd64 (Store.empty.assign "a" negativePriceReceipt) "a" = -20 := by
    rfl
  rw [h]
  exact ⟨rfl, by decide⟩

/-- C4 amended: for every receipt in which each item that rule 5 counts (the
trimmed description has a byte length that is a multiple of 3) has a price
that `ParseFloat` reads as a finite value from 0 up to `2 ^ 62` (a text that
is not a number reads as 0), and whose seven contributions add up to less
than `2 ^ 63`, the score `CalculatePoints` returns is greater than or equal
to 0. -/
theorem C4_score_nonneg (arch : Arch) (receiptData : Store) (id : String)
    (hprices : ∀ item ∈ (receiptData.index id).Items,
      strings.len (strings.TrimSpace item.ShortDescription.data) % 3 = 0 →
        ∃ z : Int, (strconv.ParseFloat item.Price).1 = F64.fin z ∧ 0 ≤ z ∧
          z < 2 ^ 62 * (F64.unit : Int))
    (hsum : exactSum arch (receiptData.index id) < 2 ^ 63) :
    0 ≤ CalculatePoints arch receiptData id := by
  unfold CalculatePoints
  simp only []
  have hitems : 0 ≤ itemsSum arch (receiptData.index id).Items := by
    apply itemsSum_nonneg
    intro item hi
    rw [itemPoints_eq]
    split
    · rename_i hlen
      obtain ⟨z, hz, hz0, hzlt⟩ := hprices item hi hlen
      rw [hz, wrap64_of_InRange (toInt_range arch _)]
      exact price_points_nonneg arch z hz0 hzlt
    · exact le_refl _
  obtain ⟨h2, h3, h6, h7⟩ := term_nonneg (receiptData.index id).Total
    (receiptData.index id).PurchaseDate (receiptData.index id).PurchaseTime
  have h0 : 0 ≤ exactSum arch (receiptData.index id) := by
    unfold exactSum
    have : (0 : Int) ≤ (((receiptData.index id).Retailer.data.filter asciiAlnum).length : Int) :=
      Int.natCast_nonneg _
    have : (0 : Int) ≤ 5 * (((receiptData.index id).Items.length / 2 : Nat) : Int) := by
      have := Int.natCast_nonneg ((receiptData.index id).Items.length / 2)
      omega
    omega
  rw [scoreReceipt_eq_exactSum, wrap64_of_range _ (by omega) hsum]
  exact h0

/-- C4 amended, at the receipt `targetReceipt` (28 points). -/
theorem C4_score_nonneg_witness :
    0 ≤ CalculatePoints Arch.amd64 (Store.empty.assign "t" targetReceipt) "t" :=
  C4_score_nonneg Arch.amd64 (Store.empty.assign "t" targetReceipt) "t"
    (by
      intro item hi hl
      have hidx : (Store.empty.assign "t" targetReceipt).index "t" = targetReceipt := rfl
      rw [hidx] at hi
      simp only [targetReceipt, List.mem_cons, List.mem_singleton, List.not_mem_nil,
        or_false] at hi
      rcases hi with h | h | h | h | h <;> subst h
      · exact absurd hl (by decide)
      · exact ⟨_, rfl, by decide, by decide⟩
      · exact absurd hl (by decide)
      · exact absurd hl (by decide)
      · exact ⟨_, rfl, by decide, by decide⟩)
    (by decide)

/-! ## C5: the score as a sum -/

/-- C5: for every store and id, the score `CalculatePoints` returns for the
receipt it reads is the sum, in Go's `int` addition, of seven terms: term 1
is a function of the retailer alone, terms 2 and 3 of the total, term 4 of
the number of items, term 5 of the items (descriptions and prices), term 6
of the purchase date and term 7 of the purchase time, each term being what
its rule adds when it runs alone. -/
theorem C5_score_is_sum_of_terms (arch : Arch) (receiptData : Store) (id : String) :
    CalculatePoints arch receiptData id =
      add64 (add64 (add64 (add64 (add64 (add64
        (term1 (receiptData.index id).Retailer)
        (term2 (receiptData.index id).Total))
        (term3 (receiptData.index id).Total))
        (term4 (receiptData.index id).Items.length))
        (term5 arch (receiptData.index id).Items))
        (term6 (receiptData.index id).PurchaseDate))
        (term7 (receiptData.index id).PurchaseTime) := by
  unfold CalculatePoints
  simp only []
  rw [scoreReceipt_eq_sum]
  simp only [add64, wrap64_wrap64_add]

/-! ## C6: retailer rule -/

/-- C6: rule 1 adds to `points` the number of runes of the retailer name that
are ASCII letters or ASCII digits; taking the spaces out first does not
change that number; `"M&M Corner Market"` contributes 14. -/
theorem C6_retailer_rule (r : Receipt) (points : Int) :
    rule1 r points = add64 points ((r.Retailer.data.filter asciiAlnum).length : Int) ∧
      ((strings.ReplaceAll r.Retailer.data ' ' []).filter asciiAlnum).length
        = (r.Retailer.data.filter asciiAlnum).length ∧
      rule1 (Receipt.ofRetailer "M&M Corner Market") 0 = 14 := by
  refine ⟨rule1_eq r points, by rw [replaceAll_space], by rfl⟩

/-! ## C7: round-dollar rule -/

/-- C7 as stated fails: the total `1.0000000000000000000001` has a fractional
part that is not zero, and rule 2 adds 50 for it (the nearest float64 is 1). -/
theorem C7_long_fraction_gets_50 :
    longOne.text = "1.0000000000000000000001" ∧ Int.fract longOne.value ≠ 0 ∧
      rule2 (Receipt.ofTotal "1.0000000000000000000001") 0 = 50 := by
  refine ⟨by decide, ?_, by decide⟩
  rw [Ne, DecimalText.fract_value]
  decide

/-- C7 amended: for every total that is a plain decimal text of at most 15
digits, rule 2 adds 50 to `points` when the exact decimal value has fractional
part zero, and leaves `points` as they are otherwise. -/
theorem C7_round_dollar_rule (t : DecimalText) (hip : t.intDigits ≠ [])
    (hlen : t.intDigits.length + t.fracDigits.length ≤ 15) (r : Receipt)
    (hr : r.Total = t.text) (points : Int) :
    rule2 r points = if Int.fract t.value = 0 then add64 points 50 else points := by
  rw [rule2_short t hip hlen r hr points]
  by_cases h : 10 ^ t.fracDigits.length ∣ t.digits
  · rw [if_pos h, if_pos ((DecimalText.fract_value t).2 h)]
  · rw [if_neg h, if_neg (fun hf => h ((DecimalText.fract_value t).1 hf))]

/-- C7 amended, at the totals `35.00` (50 points) and `35.10` (none). -/
theorem C7_round_dollar_rule_witness :
    rule2 (Receipt.ofTotal "35.00") 0 = 50 ∧ rule2 (Receipt.ofTotal "35.10") 0 = 0 ∧
      Int.fract (DecimalText.mk false [3, 5] [0, 0]).value = 0 ∧
      Int.fract (DecimalText.mk false [3, 5] [1, 0]).value ≠ 0 := by
  have h1 := C7_round_dollar_rule ⟨false, [3, 5], [0, 0]⟩ (by decide) (by decide)
    (Receipt.ofTotal "35.00") (by decide) 0
  have h2 := C7_round_dollar_rule ⟨false, [3, 5], [1, 0]⟩ (by decide) (by decide)
    (Receipt.ofTotal "35.10") (by decide) 0
  have f1 : Int.fract (DecimalText.mk false [3, 5] [0, 0]).value = 0 :=
    (DecimalText.fract_value _).2 (by decide)
  have f2 : Int.fract (DecimalText.mk false [3, 5] [1, 0]).value ≠ 0 :=
    fun h => absurd ((DecimalText.fract_value _).1 h) (by decide)
  rw [if_pos f1] at h1
  rw [if_neg f2] at h2
  exact ⟨h1.trans (by decide), h2, f1, f2⟩

/-! ## C8: quarter-multiple rule -/

/-- C8 as stated fails: the total `0.2500000000000000000001` is not a multiple
of 0.25 (its quotient by 0.25 has a fractional part), and rule 3 adds 25 for
it (the nearest float64 is 0.25). -/
theorem C8_long_fraction_gets_25 :
    longQuarter.text = "0.2500000000000000000001" ∧
      Int.fract (longQuarter.value / (1 / 4)) ≠ 0 ∧
      rule3 (Receipt.ofTotal "0.2500000000000000000001") 0 = 25 := by
  refine ⟨by decide, ?_, by decide⟩
  rw [Ne, DecimalText.fract_quarter, DecimalText.quarter_value]
  decide

/-- C8 amended: for every total that is a plain decimal text of at most 15
digits, rule 3 adds 25 to `points` if and only if the exact decimal value is
greater than zero and a multiple of 0.25 (its quotient by 0.25 has fractional
part zero); otherwise, a total of zero and a negative total included, it
leaves `points` as they are. -/
theorem C8_quarter_rule (t : DecimalText) (hip : t.intDigits ≠ [])
    (hlen : t.intDigits.length + t.fracDigits.length ≤ 15) (r : Receipt)
    (hr : r.Total = t.text) (points : Int) :
    rule3 r points =
      if 0 < t.value ∧ Int.fract (t.value / (1 / 4)) = 0 then add64 points 25 else points := by
  rw [rule3_short t hip hlen r hr points]
  have hiff : ((t.neg = false ∧ 0 < t.digits) ∧ 10 ^ t.fracDigits.length ∣ 2 ^ 2 * t.digits)
      ↔ (0 < t.value ∧ Int.fract (t.value / (1 / 4)) = 0) := by
    rw [DecimalText.fract_quarter, DecimalText.quarter_value, DecimalText.value_pos]
  by_cases h : (t.neg = false ∧ 0 < t.digits) ∧ 10 ^ t.fracDigits.length ∣ 2 ^ 2 * t.digits
  · rw [if_pos h, if_pos (hiff.1 h)]
  · rw [if_neg h, if_neg (fun hf => h (hiff.2 hf))]

/-- C8 amended, at the totals `9.00` (25 points), `35.10` and `-9.00` (none). -/
theorem C8_quarter_rule_witness :
    rule3 (Receipt.ofTotal "9.00") 0 = 25 ∧ rule3 (Receipt.ofTotal "35.10") 0 = 0 ∧
      rule3 (Receipt.ofTotal "-9.00") 0 = 0 := by
  have h1 := C8_quarter_rule ⟨false, [9], [0, 0]⟩ (by decide) (by decide)
    (Receipt.ofTotal "9.00") (by decide) 0
  have h2 := C8_quarter_rule ⟨false, [3, 5], [1, 0]⟩ (by decide) (by decide)
    (Receipt.ofTotal "35.10") (by decide) 0
  have h3 := C8_quarter_rule ⟨true, [9], [0, 0]⟩ (by decide) (by decide)
    (Receipt.ofTotal "-9.00") (by decide) 0
  have c1 : 0 < (DecimalText.mk false [9] [0, 0]).value ∧
      Int.fract ((DecimalText.mk false [9] [0, 0]).value / (1 / 4)) = 0 := by
    rw [DecimalText.fract_quarter, DecimalText.quarter_value, DecimalText.value_pos]
    decide
  have c2 : ¬ (0 < (DecimalText.mk false [3, 5] [1, 0]).value ∧
      Int.fract ((DecimalText.mk false [3, 5] [1, 0]).value / (1 / 4)) = 0) := by
    rw [DecimalText.fract_quarter, DecimalText.quarter_value, DecimalText.value_pos]
    decide
  have c3 : ¬ (0 < (DecimalText.mk true [9] [0, 0]).value ∧
      Int.fract ((DecimalText.mk true [9] [0, 0]).value / (1 / 4)) = 0) := by
    rw [DecimalText.fract_quarter, DecimalText.quarter_value, DecimalText.value_pos]
    decide
  rw [if_pos c1] at h1
  rw [if_neg c2] at h2
  rw [if_neg c3] at h3
  exact ⟨h1.trans (by decide), h2, h3⟩

/-! ## C9: item-pair rule -/

/-- C9: for a receipt with `n` items, rule 4 adds `5 * (n / 2)` (integer
division) to `points`, whatever the items are: it adds the same for `n`
blank items, and run alone it gives 10 for 5 items, 0 for 1 item and 0 for
0 items. -/
theorem C9_item_pair_rule (r : Receipt) (points : Int) :
    rule4 r points = add64 points (5 * ((r.Items.length / 2 : Nat) : Int)) ∧
      rule4 r points = rule4 (Receipt.ofItems (List.replicate r.Items.length ⟨"", ""⟩)) points ∧
      term4 5 = 10 ∧ term4 1 = 0 ∧ term4 0 = 0 := by
  refine ⟨rfl, ?_, by rfl, by rfl, by rfl⟩
  simp [rule4, Receipt.ofItems]

/-! ## C10: description-length rule -/

/-- C10 as stated fails: the item `"abc"` at the price `5.0000000000000001`
has a description of length 3, the exact `ceil(price * 0.2)` is 2, and rule 5
adds 1 (the nearest float64 of the price is 5). -/
theorem C10_long_price_adds_1 :
    longFive.text = "5.0000000000000001" ∧ ⌈longFive.value * (2 / 10)⌉ = 2 ∧
      strings.len (strings.TrimSpace "abc".data) = 3 ∧
      rule5Item Arch.amd64 ⟨"abc", "5.0000000000000001"⟩ 0 = 1 := by
  refine ⟨by decide, ?_, by decide, by decide⟩
  have hd : longFive.digits = 50000000000000001 := by decide
  have hl : longFive.fracDigits.length = 16 := by decide
  have hn : longFive.neg = false := rfl
  unfold DecimalText.value
  rw [hd, hl, hn, Int.ceil_eq_iff]
  norm_num

/-- C10 amended: for every item whose short description, trimmed, has a byte
length that is a positive multiple of 3 and whose price is a plain decimal
text of at most 15 digits, rule 5 adds exactly `ceil(price * 0.2)` to
`points`, the price taken as its exact decimal value. -/
theorem C10_description_rule (arch : Arch) (item : Item) (t : DecimalText)
    (hip : t.intDigits ≠ []) (hlen : t.intDigits.length + t.fracDigits.length ≤ 15)
    (hprice : item.Price = t.text)
    (hdesc : 0 < strings.len (strings.TrimSpace item.ShortDescription.data) ∧
      strings.len (strings.TrimSpace item.ShortDescription.data) % 3 = 0)
    (points : Int) :
    rule5Item arch item points = add64 points ⌈t.value * (2 / 10)⌉ := by
  unfold rule5Item
  simp only []
  rw [if_pos hdesc.2, hprice, price_points_short arch t hip hlen]

/-- C10 amended, at the item `"Emils Cheese Pizza"` for `12.25`: 3 points. -/
theorem C10_description_rule_witness :
    rule5Item Arch.amd64 ⟨"Emils Cheese Pizza", "12.25"⟩ 0
        = add64 0 ⌈(DecimalText.mk false [1, 2] [2, 5]).value * (2 / 10)⌉ ∧
      rule5Item Arch.amd64 ⟨"Emils Cheese Pizza", "12.25"⟩ 0 = 3 :=
  ⟨C10_description_rule Arch.amd64 ⟨"Emils Cheese Pizza", "12.25"⟩ ⟨false, [1, 2], [2, 5]⟩
    (by decide) (by decide) (by decide) (by decide) 0, by decide⟩

/-! ## C11: descriptions whose length is not counted -/

/-- C11 as stated fails: the description of three spaces has the trimmed
length 0, and rule 5 adds 1 for the item at the price `5` (0 is a multiple
of 3 for the test `descriptionLength%3 == 0`). -/
theorem C11_blank_description_scores :
    strings.len (strings.TrimSpace "   ".data) = 0 ∧
      rule5Item Arch.amd64 ⟨"   ", "5"⟩ 0 = 1 ∧ rule5Item Arch.amd64 ⟨"", "5"⟩ 0 = 1 := by
  decide

/-- C11 amended: for every item whose trimmed short description has a byte
length that is not a multiple of 3, whatever the price, rule 5 adds nothing:
`points` stay as they are.  For every item whose trimmed short description
has the length 0, rule 5 adds `int(math.Ceil(p * 0.2))`, `p` being the
float64 `ParseFloat` reads from the price and the product and the ceiling
being those of float64; when the price is a plain decimal text of at most 15
digits, that is `ceil(price * 0.2)` of the exact decimal value. -/
theorem C11_uncounted_and_blank (arch : Arch) (item : Item) (points : Int) :
    (strings.len (strings.TrimSpace item.ShortDescription.data) % 3 ≠ 0 →
        rule5Item arch item points = points) ∧
      (strings.len (strings.TrimSpace item.ShortDescription.data) = 0 →
        rule5Item arch item points =
          add64 points
            (toInt arch (F64.Ceil (F64.mul (strconv.ParseFloat item.Price).1 F64.fifth)))) ∧
      ∀ t : DecimalText, t.intDigits ≠ [] → t.intDigits.length + t.fracDigits.length ≤ 15 →
        item.Price = t.text →
        strings.len (strings.TrimSpace item.ShortDescription.data) = 0 →
        rule5Item arch item points = add64 points ⌈t.value * (2 / 10)⌉ := by
  refine ⟨fun h => ?_, fun h => ?_, fun t hip hlen hprice h => ?_⟩
  · unfold rule5Item
    simp only []
    rw [if_neg h]
  · unfold rule5Item
    simp only []
    rw [if_pos (by rw [h])]
  · unfold rule5Item
    simp only []
    rw [if_pos (by rw [h]), hprice, price_points_short arch t hip hlen]

/-- C11 amended, at the item `"Gatorade"` (8 bytes) for `2.25`, which adds
nothing; at the blank item for `5.0000000000000001`, which adds 1 (the
float64 read from the price is 5); and at the blank item for `5.01`, which
adds the ceiling of 1.002. -/
theorem C11_uncounted_and_blank_witness :
    rule5Item Arch.amd64 ⟨"Gatorade", "2.25"⟩ 7 = 7 ∧
      rule5Item Arch.amd64 ⟨"   ", "5.0000000000000001"⟩ 7 = 8 ∧
      rule5Item Arch.amd64 ⟨"   ", "5.01"⟩ 7
        = add64 7 ⌈(DecimalText.mk false [5] [0, 1]).value * (2 / 10)⌉ ∧
      rule5Item Arch.amd64 ⟨"   ", "5.01"⟩ 7 = 9 :=
  ⟨(C11_uncounted_and_blank Arch.amd64 ⟨"Gatorade", "2.25"⟩ 7).1 (by decide),
    ((C11_uncounted_and_blank Arch.amd64 ⟨"   ", "5.0000000000000001"⟩ 7).2.1 (by decide)).trans
      (by decide),
    (C11_uncounted_and_blank Arch.amd64 ⟨"   ", "5.01"⟩ 7).2.2 ⟨false, [5], [0, 1]⟩
      (by decide) (by decide) (by decide) (by decide),
    by decide⟩

/-! ## C12: odd-day rule on valid dates -/

/-- C12: for every purchase date that is a valid calendar date written
`YYYY-MM-DD`, rule 6 adds 6 to `points` when the day of the month is odd and
nothing when it is even. -/
theorem C12_odd_day_rule (y m d : Nat) (hv : ValidDate y m d) (r : Receipt)
    (hr : r.PurchaseDate = dateText y m d) (points : Int) :
    rule6 r points = if d % 2 = 1 then add64 points 6 else points := by
  unfold rule6
  simp only []
  rw [hr, Parse_dateText y m d hv]
  simp only [time.Date, time.Time.Day]
  by_cases hd : d % 2 = 1
  · rw [if_pos hd, if_pos (by omega)]
  · rw [if_neg hd, if_neg (by omega)]

/-- C12 at the dates `2022-01-01` (6 points) and `2022-03-20` (none). -/
theorem C12_odd_day_rule_witness :
    ValidDate 2022 1 1 ∧ ValidDate 2022 3 20 ∧
      rule6 (Receipt.ofDate "2022-01-01") 0 = 6 ∧ rule6 (Receipt.ofDate "2022-03-20") 0 = 0 :=
  ⟨by decide, by decide,
    (C12_odd_day_rule 2022 1 1 (by decide) (Receipt.ofDate "2022-01-01") (by decide) 0).trans
      (by decide),
    (C12_odd_day_rule 2022 3 20 (by decide) (Receipt.ofDate "2022-03-20") (by decide) 0).trans
      (by decide)⟩

/-! ## C13: afternoon rule on valid times -/

/-- C13: for every purchase time that is a valid 24-hour time written `HH:MM`,
rule 7 adds 10 to `points` if and only if the time is strictly after 14:00 and
strictly before 16:00 (counted in minutes of the day: more than 840 and less
than 960), and nothing otherwise. -/
theorem C13_afternoon_rule (h m : Nat) (hh : h < 24) (hm : m < 60) (r : Receipt)
    (hr : r.PurchaseTime = clockText h m) (points : Int) :
    rule7 r points =
      if 14 * 60 < h * 60 + m ∧ h * 60 + m < 16 * 60 then add64 points 10 else points := by
  unfold rule7
  simp only []
  rw [hr, Parse_clockText h m hh hm]
  simp only [time.Date, time.Time.After, time.Time.Before, decide_eq_true_eq,
    lt_self_iff_false, true_and, false_or]
  split_ifs with h1 h2 h2 <;> first | rfl | (exfalso; omega)

/-- C13 at `14:00` and `16:00` (nothing), `14:01`, `14:33` and `15:59` (10
points). -/
theorem C13_afternoon_rule_witness :
    rule7 (Receipt.ofTime "14:00") 0 = 0 ∧ rule7 (Receipt.ofTime "16:00") 0 = 0 ∧
      rule7 (Receipt.ofTime "14:01") 0 = 10 ∧ rule7 (Receipt.ofTime "14:33") 0 = 10 ∧
      rule7 (Receipt.ofTime "15:59") 0 = 10 :=
  ⟨(C13_afternoon_rule 14 0 (by decide) (by decide) (Receipt.ofTime "14:00") (by decide) 0).trans
      (by decide),
    (C13_afternoon_rule 16 0 (by decide) (by decide) (Receipt.ofTime "16:00") (by decide) 0).trans
      (by decide),
    (C13_afternoon_rule 14 1 (by decide) (by decide) (Receipt.ofTime "14:01") (by decide) 0).trans
      (by decide),
    (C13_afternoon_rule 14 33 (by decide) (by decide) (Receipt.ofTime "14:33") (by decide) 0).trans
      (by decide),
    (C13_afternoon_rule 15 59 (by decide) (by decide) (Receipt.ofTime "15:59") (by decide) 0).trans
      (by decide)⟩

/-! ## C14: dates that do not parse -/

/-- C14 as stated fails: the impossible date `2022-02-30` and the empty text
do not parse, and rule 6 adds 6 for each of them. -/
theorem C14_unparsable_date_gets_6 :
    (time.Parse time.layoutDate "2022-02-30").2 = true ∧
      rule6 (Receipt.ofDate "2022-02-30") 0 = 6 ∧
      (time.Parse time.layoutDate "").2 = true ∧ rule6 (Receipt.ofDate "") 0 = 6 := by
  decide

/-- C14 amended: for every purchase-date text that `time.Parse` rejects (empty,
malformed, or an impossible date), rule 6 works on the zero `Time`, January 1
of the year 1, whose day 1 is odd: it adds 6 to `points`. -/
theorem C14_unparsable_date (r : Receipt) (points : Int)
    (h : (time.Parse time.layoutDate r.PurchaseDate).2 = true) :
    (time.Parse time.layoutDate r.PurchaseDate).1 = time.Time.zero ∧
      rule6 r points = add64 points 6 := by
  have hz := Parse_error _ _ h
  refine ⟨hz, ?_⟩
  unfold rule6
  simp only []
  rw [hz]
  rfl

/-- C14 amended, at the malformed date `01/02/2022`. -/
theorem C14_unparsable_date_witness :
    (time.Parse time.layoutDate "01/02/2022").2 = true ∧
      (time.Parse time.layoutDate "01/02/2022").1 = time.Time.zero ∧
      rule6 (Receipt.ofDate "01/02/2022") 0 = 6 :=
  ⟨by decide,
    (C14_unparsable_date (Receipt.ofDate "01/02/2022") 0 (by decide)).1,
    (C14_unparsable_date (Receipt.ofDate "01/02/2022") 0 (by decide)).2.trans (by decide)⟩

/-! ## C15: times that do not parse -/

/-- C15: for every purchase-time text that `time.Parse` rejects (empty,
malformed, or out of range), rule 7 adds nothing: the zero `Time` it works on
is in the year 1, after the whole window of the year 0. -/
theorem C15_unparsable_time (r : Receipt) (points : Int)
    (h : (time.Parse time.layoutClock r.PurchaseTime).2 = true) :
    rule7 r points = points := by
  have hz := Parse_error _ _ h
  unfold rule7
  simp only []
  rw [hz]
  rfl

/-- C15 at the time `25:00`, and at the empty text. -/
theorem C15_unparsable_time_witness :
    (time.Parse time.layoutClock "25:00").2 = true ∧ rule7 (Receipt.ofTime "25:00") 9 = 9 ∧
      (time.Parse time.layoutClock "").2 = true ∧ rule7 (Receipt.ofTime "") 9 = 9 :=
  ⟨by decide, C15_unparsable_time (Receipt.ofTime "25:00") 9 (by decide),
    by decide, C15_unparsable_time (Receipt.ofTime "") 9 (by decide)⟩

/-! ## C16: numbers that do not parse -/

/-- C16 as stated fails for a text that is out of range: `ParseFloat` gives
`1e999` the value +Inf with a range error, not 0.  As a total, `1e999` gets
no round-dollar 50 where `0` gets it, and the two receipts score 6 and 56; as
the price of a counted item, `1e999` makes rule 5 add the out-of-range
conversion of +Inf (`-2 ^ 63` on amd64) where `0` adds 0. -/
theorem C16_out_of_range_is_not_zero :
    strconv.ParseFloat "1e999" = (F64.pinf, some strconv.NumError.ErrRange) ∧
      rule2 (Receipt.ofTotal "1e999") 0 = 0 ∧ rule2 (Receipt.ofTotal "0") 0 = 50 ∧
      CalculatePoints Arch.amd64 (Store.empty.assign "a" (Receipt.ofTotal "1e999")) "a" = 6 ∧
      CalculatePoints Arch.amd64 (Store.empty.assign "a" (Receipt.ofTotal "0")) "a" = 56 ∧
      rule5Item Arch.amd64 ⟨"abc", "1e999"⟩ 0 = -(2 ^ 63) ∧
      rule5Item Arch.amd64 ⟨"abc", "0"⟩ 0 = 0 := by
  refine ⟨by decide, by decide, by decide, by rfl, by rfl, by decide, by decide⟩

/-- C16 amended: for every text on which `ParseFloat` fails with a syntax
error, `CalculatePoints` works on the value 0.  As the total of a stored
receipt, the text gives the score of the same receipt with the total `0`,
rule 2 adds 50 and rule 3 adds nothing; as the price of any item of a stored
receipt, the text gives the score of the same receipt with that price `0`,
and the item adds 0 under rule 5.  For every text on which `ParseFloat` fails
with a range error, the value is plus or minus infinity: as a total, rules 2
and 3 add nothing for it, and as the price of an item rule 5 counts, what is
added is the conversion `int` of that infinity, which is left to the
implementation. -/
theorem C16_parse_failure (arch : Arch) (text : String)
    (receiptData : Store) (id retailer date time total desc : String)
    (items pre post : List Item) :
    ((strconv.ParseFloat text).2 = some strconv.NumError.ErrSyntax →
      (CalculatePoints arch (receiptData.assign id ⟨retailer, date, time, items, text⟩) id =
          CalculatePoints arch (receiptData.assign id ⟨retailer, date, time, items, "0"⟩) id ∧
        rule2 (Receipt.ofTotal text) 0 = 50 ∧ rule3 (Receipt.ofTotal text) 0 = 0) ∧
      (CalculatePoints arch
            (receiptData.assign id ⟨retailer, date, time, pre ++ ⟨desc, text⟩ :: post, total⟩) id =
          CalculatePoints arch
            (receiptData.assign id ⟨retailer, date, time, pre ++ ⟨desc, "0"⟩ :: post, total⟩) id ∧
        rule5Item arch ⟨desc, text⟩ 0 = 0)) ∧
    ((strconv.ParseFloat text).2 = some strconv.NumError.ErrRange →
      ((strconv.ParseFloat text).1 = F64.pinf ∨ (strconv.ParseFloat text).1 = F64.ninf) ∧
      (∀ points : Int, rule2 ⟨retailer, date, time, items, text⟩ points = points ∧
        rule3 ⟨retailer, date, time, items, text⟩ points = points) ∧
      ∀ points : Int, rule5Item arch ⟨desc, text⟩ points =
        if strings.len (strings.TrimSpace desc.data) % 3 = 0 then
          add64 points (arch.convOutOfRange (strconv.ParseFloat text).1)
        else points) := by
  constructor
  · intro h
    have hv : (strconv.ParseFloat text).1 = (strconv.ParseFloat "0").1 := by
      rw [ParseFloat_syntax_zero text h, ParseFloat_zero_text]
    have h2 := term2_congr text "0" hv
    have h3 := term3_congr text "0" hv
    have hi := itemPoints_congr arch desc text "0" hv
    have h20 : term2 "0" = 50 := by decide
    have h30 : term3 "0" = 0 := by decide
    refine ⟨⟨?_, ?_, ?_⟩, ?_, ?_⟩
    · rw [CalculatePoints_assign, CalculatePoints_assign, scoreReceipt_eq_sum, scoreReceipt_eq_sum]
      simp only [h2, h3]
    · exact h2.trans h20
    · exact h3.trans h30
    · rw [CalculatePoints_assign, CalculatePoints_assign, scoreReceipt_eq_sum, scoreReceipt_eq_sum]
      simp only [List.length_append, List.length_cons, term5_eq, itemsSum_append, itemsSum_cons, hi]
    · exact itemPoints_of_zero arch desc text (ParseFloat_syntax_zero text h)
  · intro h
    have hinf := ParseFloat_range_inf text h
    exact ⟨hinf, fun points => ⟨rule2_of_inf _ points hinf, rule3_of_inf _ points hinf⟩,
      fun points => rule5Item_of_inf arch ⟨desc, text⟩ points hinf⟩

/-- C16 amended, at the text `abc`, a syntax error: the Target receipt with
the total `abc`, and with the price of its second item `abc`; and at the text
`-1e999`, a range error with the value -Inf: no points from rules 2 and 3,
and `-2 ^ 63` from rule 5 on amd64. -/
theorem C16_parse_failure_witness :
    ((CalculatePoints Arch.amd64
            (Store.empty.assign "a" ⟨"Target", "2022-01-01", "13:01", targetReceipt.Items, "abc"⟩)
            "a" =
          CalculatePoints Arch.amd64
            (Store.empty.assign "a" ⟨"Target", "2022-01-01", "13:01", targetReceipt.Items, "0"⟩)
            "a" ∧
        rule2 (Receipt.ofTotal "abc") 0 = 50 ∧ rule3 (Receipt.ofTotal "abc") 0 = 0) ∧
      (CalculatePoints Arch.amd64
            (Store.empty.assign "a" ⟨"Target", "2022-01-01", "13:01",
              [⟨"Mountain Dew 12PK", "6.49"⟩] ++ ⟨"Emils Cheese Pizza", "abc"⟩ :: [], "35.35"⟩)
            "a" =
          CalculatePoints Arch.amd64
            (Store.empty.assign "a" ⟨"Target", "2022-01-01", "13:01",
              [⟨"Mountain Dew 12PK", "6.49"⟩] ++ ⟨"Emils Cheese Pizza", "0"⟩ :: [], "35.35"⟩)
            "a" ∧
        rule5Item Arch.amd64 ⟨"Emils Cheese Pizza", "abc"⟩ 0 = 0)) ∧
      strconv.ParseFloat "-1e999" = (F64.ninf, some strconv.NumError.ErrRange) ∧
      rule2 ⟨"Target", "2022-01-01", "13:01", targetReceipt.Items, "-1e999"⟩ 14 = 14 ∧
      rule3 ⟨"Target", "2022-01-01", "13:01", targetReceipt.Items, "-1e999"⟩ 14 = 14 ∧
      rule5Item Arch.amd64 ⟨"Emils Cheese Pizza", "-1e999"⟩ 0 = -(2 ^ 63) :=
  ⟨(C16_parse_failure Arch.amd64 "abc" Store.empty "a" "Target" "2022-01-01" "13:01" "35.35"
      "Emils Cheese Pizza" targetReceipt.Items [⟨"Mountain Dew 12PK", "6.49"⟩] []).1 (by decide),
    by decide,
    (((C16_parse_failure Arch.amd64 "-1e999" Store.empty "a" "Target" "2022-01-01" "13:01"
      "35.35" "Emils Cheese Pizza" targetReceipt.Items [] []).2 (by decide)).2.1 14).1,
    (((C16_parse_failure Arch.amd64 "-1e999" Store.empty "a" "Target" "2022-01-01" "13:01"
      "35.35" "Emils Cheese Pizza" targetReceipt.Items [] []).2 (by decide)).2.1 14).2,
    (((C16_parse_failure Arch.amd64 "-1e999" Store.empty "a" "Target" "2022-01-01" "13:01"
      "35.35" "Emils Cheese Pizza" targetReceipt.Items [] []).2 (by decide)).2.2 0).trans
      (by decide)⟩

/-! ## C17: what a submission does to the store -/

/-- C18: for every id that is not a key of the store, `CalculatePoints`
returns the score it returns for an id under which a receipt with empty
retailer, purchase date, purchase time and total and no items is stored, and
`GetPointsHandler` gives the same response in the two cases. -/
theorem C18_absent_as_empty_receipt (arch : Arch) (receiptData other : Store) (id key : String)
    (habsent : receiptData id = none) (hstored : other key = some ⟨"", "", "", [], ""⟩) :
    CalculatePoints arch receiptData id = CalculatePoints arch other key ∧
      GetPointsHandler arch receiptData id = GetPointsHandler arch other key := by
  have h : CalculatePoints arch receiptData id = CalculatePoints arch other key := by
    unfold CalculatePoints
    simp only []
    rw [index_of_none habsent, index_of_some hstored]
    rfl
  refine ⟨h, ?_⟩
  unfold GetPointsHandler
  simp only [h]

/-- C18 at the empty store and the id `nope`, against a store that holds the
all-empty receipt under `e`: the score is 56 in both. -/
theorem C18_absent_as_empty_receipt_witness :
    CalculatePoints Arch.amd64 Store.empty "nope" =
        CalculatePoints Arch.amd64 (Store.empty.assign "e" ⟨"", "", "", [], ""⟩) "e" ∧
      GetPointsHandler Arch.amd64 Store.empty "nope" =
        GetPointsHandler Arch.amd64 (Store.empty.assign "e" ⟨"", "", "", [], ""⟩) "e" :=
  C18_absent_as_empty_receipt Arch.amd64 Store.empty
    (Store.empty.assign "e" ⟨"", "", "", [], ""⟩) "nope" "e" rfl (by decide)

/-! ## C19: rules 2 and 3 together -/

/-- C19: for every receipt, with `v` the value `ParseFloat` gives for its
total, one of two cases holds.  Either `v` is greater than zero: then rule 2
adds nothing or rule 3 adds 25, and the two rules together add 0, 25 or 75.
Or `v` is not greater than zero: then rule 3 adds nothing, and the two rules
together add 0, or they add 50 and `v` is zero or a negative whole number
(`k` times 1.0 for an integer `k` that is at most 0), which is also what a
text with a syntax error is read as. -/
theorem C19_total_rules_together (r : Receipt) :
    (F64.gt (strconv.ParseFloat r.Total).1 F64.zero = true ∧
        (rule2 r 0 = 0 ∨ rule3 r 0 = 25) ∧
        (rule3 r (rule2 r 0) = 0 ∨ rule3 r (rule2 r 0) = 25 ∨ rule3 r (rule2 r 0) = 75)) ∨
      (F64.gt (strconv.ParseFloat r.Total).1 F64.zero = false ∧ rule3 r 0 = 0 ∧
        (rule3 r (rule2 r 0) = 0 ∨
          (rule3 r (rule2 r 0) = 50 ∧
            ∃ k : Int, k ≤ 0 ∧ (strconv.ParseFloat r.Total).1 = F64.fin (k * (F64.unit : Int))))) := by
  have e50 : add64 0 50 = 50 := by decide
  have e25 : add64 0 25 = 25 := by decide
  have e75 : add64 50 25 = 75 := by decide
  unfold rule2 rule3
  simp only []
  rcases two_rules_cases (strconv.ParseFloat r.Total).1 with ⟨hg, hAB⟩ | ⟨hg, hA⟩
  · left
    refine ⟨hg, ?_⟩
    by_cases hA : F64.eq (F64.Mod (strconv.ParseFloat r.Total).1 F64.one) F64.zero = true
    · have hB := hAB hA
      simp [hg, hA, hB, e50, e25, e75]
    · by_cases hB : F64.eq (F64.Mod (strconv.ParseFloat r.Total).1 F64.quarter) F64.zero = true
      · simp [hg, hA, hB, e25]
      · simp [hg, hA, hB]
  · right
    refine ⟨hg, ?_⟩
    by_cases hA1 : F64.eq (F64.Mod (strconv.ParseFloat r.Total).1 F64.one) F64.zero = true
    · have hk := hA hA1
      simp only [hg, hA1, e50, if_true, Bool.false_eq_true, false_and, if_false, true_and]
      exact Or.inr hk
    · simp [hg, hA1]

/-- The cases of C19 at totals of each kind: a whole number, a multiple of a
quarter, another amount, zero, a negative whole number, a negative amount, a
text that is not a number, and a number out of range. -/
theorem total_rules_examples :
    rule3 (Receipt.ofTotal "35.00") (rule2 (Receipt.ofTotal "35.00") 0) = 75 ∧
      rule3 (Receipt.ofTotal "35.25") (rule2 (Receipt.ofTotal "35.25") 0) = 25 ∧
      rule3 (Receipt.ofTotal "35.35") (rule2 (Receipt.ofTotal "35.35") 0) = 0 ∧
      rule3 (Receipt.ofTotal "0") (rule2 (Receipt.ofTotal "0") 0) = 50 ∧
      rule3 (Receipt.ofTotal "-3") (rule2 (Receipt.ofTotal "-3") 0) = 50 ∧
      rule3 (Receipt.ofTotal "-3.5") (rule2 (Receipt.ofTotal "-3.5") 0) = 0 ∧
      rule3 (Receipt.ofTotal "abc") (rule2 (Receipt.ofTotal "abc") 0) = 50 ∧
      rule3 (Receipt.ofTotal "1e999") (rule2 (Receipt.ofTotal "1e999") 0) = 0 := by
  refine ⟨by decide, by decide, by decide, by decide, by decide, by decide, by decide, by decide⟩

/-! ## C20: the order of the items -/

/-- C20: for every receipt and every permutation of its items, the score
`CalculatePoints` returns for the receipt stored with the permuted items is
the score it returns for the receipt as it is, and the contributions of rule
4 (pairs of items) and rule 5 (descriptions and prices) are the same for the
two lists. -/
theorem C20_item_order (arch : Arch) (receiptData : Store) (id : String) (r : Receipt)
    (items : List Item) (hperm : items.Perm r.Items) :
    CalculatePoints arch
          (receiptData.assign id ⟨r.Retailer, r.PurchaseDate, r.PurchaseTime, items, r.Total⟩)
          id =
        CalculatePoints arch (receiptData.assign id r) id ∧
      term4 items.length = term4 r.Items.length ∧ term5 arch items = term5 arch r.Items := by
  have h4 : items.length = r.Items.length := hperm.length_eq
  have h5 : term5 arch items = term5 arch r.Items := by
    rw [term5_eq, term5_eq, itemsSum_perm arch items r.Items hperm]
  refine ⟨?_, by rw [h4], h5⟩
  rw [CalculatePoints_assign, CalculatePoints_assign, scoreReceipt_eq_sum, scoreReceipt_eq_sum]
  simp only [h4, h5]

/-- C20 at the Target receipt with its five items in the opposite order. -/
theorem C20_item_order_witness :
    CalculatePoints Arch.amd64
          (Store.empty.assign "a" ⟨targetReceipt.Retailer, targetReceipt.PurchaseDate,
            targetReceipt.PurchaseTime, targetReceipt.Items.reverse, targetReceipt.Total⟩)
          "a" =
        CalculatePoints Arch.amd64 (Store.empty.assign "a" targetReceipt) "a" ∧
      term4 targetReceipt.Items.reverse.length = term4 targetReceipt.Items.length ∧
      term5 Arch.amd64 targetReceipt.Items.reverse = term5 Arch.amd64 targetReceipt.Items :=
  C20_item_order Arch.amd64 Store.empty "a" targetReceipt targetReceipt.Items.reverse
    (List.reverse_perm _)

end Receipts
